import Mathlib

/-!
Verification development for the RuleFlow multiway causal rewriting engine.

The definitions below are a shallow embedding of the Python sources:
  * `src/core/vec.py`      — the cell-sequence stores `Vec` / `TrieVec` with their
                             byte search buffer, branching and the bytes cache;
  * `src/core/engine.py`   — `Cell`, `SpaceState1D` and its edit primitives,
                             `RuleSet`, `Event`, `Flow`;
  * `src/flow_lang/implementation.py` — `BaseRule.match` / `BaseRule.apply`
                             with the conflict marking/resolution policies.

Python's mutable heap objects are made explicit: engine cells consist of an
immutable `quanta` plus a reference (`ref`) into a metadata heap, so that the
aliasing behaviour of `deepcopy`/stamping is reproduced faithfully; search
buffers of the vec layer live in a buffer heap so that buffer sharing between
branches (`_branch_zero`) is reproduced faithfully.  Sequence operations use
Python slice/index semantics, spelled out in the `py*` helpers.
-/

namespace RuleFlow

/-! ## Python slice and index semantics (step 1 slices only, as used by the code) -/

/-- Resolve a possibly negative Python index against a length (`i += len` step). -/
def pyResolve (i : Int) (n : Nat) : Int :=
  if i < 0 then (n : Int) + i else i

/-- Clamp a resolved index into `[0, n]`, as Python `slice.indices` does. -/
def pyClamp (i : Int) (n : Nat) : Nat :=
  min n (max 0 i).toNat

/-- The effective `[start, stop)` bounds of the Python slice `l[a:b]` (step 1). -/
def pySliceBounds (a b : Int) (n : Nat) : Nat × Nat :=
  (pyClamp (pyResolve a n) n, pyClamp (pyResolve b n) n)

/-- Python `l[a:b]` (step 1). -/
def pySliceGet {α : Type} (l : List α) (a b : Int) : List α :=
  let (s, e) := pySliceBounds a b l.length
  (l.take e).drop s

/-- Python `l[a:b] = v` (step 1).  When `stop < start` the assignment inserts
at `start` and deletes nothing, hence the `max s e`. -/
def pySliceSet {α : Type} (l : List α) (a b : Int) (v : List α) : List α :=
  let (s, e) := pySliceBounds a b l.length
  l.take s ++ v ++ l.drop (max s e)

/-- Python `l[i] = x` for an integer index: resolve a negative index and
assign; an out-of-range index raises `IndexError` before any state change,
which the embedding renders as leaving the list unchanged. -/
def pyPointSet {α : Type} (l : List α) (i : Int) (x : α) : List α :=
  let j := pyResolve i l.length
  if 0 ≤ j ∧ j < (l.length : Int) then l.set j.toNat x else l

/-- Whether a Python integer index is in range after resolution. -/
def pyIdxValid (i : Int) (n : Nat) : Bool :=
  let j := pyResolve i n
  decide (0 ≤ j) && decide (j < (n : Int))

/-- Python `del l[i]` for an integer index (no-op render of `IndexError`). -/
def pyPointDel {α : Type} (l : List α) (i : Int) : List α :=
  let j := pyResolve i l.length
  if 0 ≤ j ∧ j < (l.length : Int) then l.eraseIdx j.toNat else l

/-- Python `l.insert(i, x)`: the index is resolved and clamped into `[0, len]`. -/
def pyInsert {α : Type} (l : List α) (i : Int) (x : α) : List α :=
  l.insertIdx (pyClamp (pyResolve i l.length) l.length) x

/-! ## Cells and the cell-metadata heap (`Cell` of `src/core/engine.py`)

A Python `Cell` object is a mutable record `{quanta, created_at, destroyed_at}`.
`quanta` is never mutated; the two metadata fields are mutated in place by
`Flow.evolve`, and `copy`/`deepcopy` allocate an independent metadata record
for the same quanta.  We therefore split a cell into its quanta and a
reference into a heap of metadata records. -/

/-- The mutable metadata of one Python `Cell` object. -/
structure Meta where
  created_at : Int
  destroyed_at : Int
  deriving DecidableEq, Repr

/-- One engine cell: the quanta payload plus the reference of the Python
object holding its metadata. -/
structure Cell where
  quanta : Char
  ref : Nat
  deriving DecidableEq, Repr

/-- The heap of cell-metadata records; `Cell.ref` indexes into it. -/
abbrev CellHeap : Type := List Meta

/-- Allocate a fresh cell object `Cell(q)` (metadata defaults to `(0, 0)`). -/
def allocCell (q : Char) (h : CellHeap) : Cell × CellHeap :=
  ({ quanta := q, ref := h.length }, h ++ [⟨0, 0⟩])

/-- Allocate one cell per character of a string, as `[Cell(c) for c in s]`. -/
def allocCells (s : List Char) (h : CellHeap) : List Cell × CellHeap :=
  match s with
  | [] => ([], h)
  | c :: cs =>
      let (cell, h1) := allocCell c h
      let (rest, h2) := allocCells cs h1
      (cell :: rest, h2)

/-- Read the metadata of a cell (a dangling reference reads junk `(0,0)`;
valid runs never produce one). -/
def readMeta (c : Cell) (h : CellHeap) : Meta :=
  h.getD c.ref ⟨0, 0⟩

/-- Overwrite the metadata record of a cell. -/
def writeMeta (c : Cell) (m : Meta) (h : CellHeap) : CellHeap :=
  h.set c.ref m

/-- `copy.deepcopy` of one cell: a fresh object with the same quanta and a
copy of the current metadata (`Cell.__deepcopy__` delegates to `__copy__`). -/
def deepcopyCell (c : Cell) (h : CellHeap) : Cell × CellHeap :=
  ({ quanta := c.quanta, ref := h.length }, h ++ [readMeta c h])

/-- `deepcopy` of a sequence of cells, left to right. -/
def deepcopyCells (cs : List Cell) (h : CellHeap) : List Cell × CellHeap :=
  match cs with
  | [] => ([], h)
  | c :: rest =>
      let (c1, h1) := deepcopyCell c h
      let (r1, h2) := deepcopyCells rest h1
      (c1 :: r1, h2)

/-! ## The cell-sequence store (`Vec` and `TrieVec` of `src/core/vec.py`)

A store holds the cell sequence `vec` and the parallel byte `search_buffer`
where `buffer[i] = ord(cell[i].quanta)`.  The flat model `VecFlat` captures the
two fields of one store; the mutation functions below mirror the bodies of the
`Vec` (list backed) and `TrieVec` (persistent vector backed) modifier methods
one for one. -/

/-- `ord(c.quanta)`: the single-byte encoding of a cell used in the buffer. -/
def ordQ (c : Cell) : Nat := c.quanta.toNat

/-- The uncached `retrieve_bytes` body: `bytes(ord(c.quanta) for c in key)`. -/
def retrieveBytesUncached (key : List Cell) : List Nat :=
  key.map ordQ

/-- The two parallel fields of one store: `self.vec` and `self.search_buffer`. -/
structure VecFlat where
  vec : List Cell
  search_buffer : List Nat
  deriving DecidableEq, Repr

/-- The public mutations of the store API exercised by the engine:
point set, range (slice) set, `insert`, point delete, range delete,
`append`, `extend`. -/
inductive MutOp where
  | setPoint (i : Int) (c : Cell)
  | setRange (a b : Int) (cs : List Cell)
  | insertAt (i : Int) (c : Cell)
  | delPoint (i : Int)
  | delRange (a b : Int)
  | appendC (c : Cell)
  | extendC (cs : List Cell)
  deriving DecidableEq, Repr

/-- `Vec.__setitem__` with an integer index: assign the cell, then the byte.
(`IndexError` on the list assignment aborts before either field changes.) -/
def vecSetPoint (v : VecFlat) (i : Int) (c : Cell) : VecFlat :=
  if pyIdxValid i v.vec.length then
    { vec := pyPointSet v.vec i c,
      search_buffer := pyPointSet v.search_buffer i (ordQ c) }
  else v

/-- `Vec.__setitem__` with a slice: `self.vec[index] = value;
self.search_buffer[index] = _retrieve_bytes(value)`. -/
def vecSetRange (v : VecFlat) (a b : Int) (cs : List Cell) : VecFlat :=
  { vec := pySliceSet v.vec a b cs,
    search_buffer := pySliceSet v.search_buffer a b (retrieveBytesUncached cs) }

/-- `Vec.insert`: `self.vec.insert(index, value);
self.search_buffer.insert(index, ord(value.quanta))`. -/
def vecInsert (v : VecFlat) (i : Int) (c : Cell) : VecFlat :=
  { vec := pyInsert v.vec i c,
    search_buffer := pyInsert v.search_buffer i (ordQ c) }

/-- `Vec.__delitem__` with an integer index. -/
def vecDelPoint (v : VecFlat) (i : Int) : VecFlat :=
  if pyIdxValid i v.vec.length then
    { vec := pyPointDel v.vec i, search_buffer := pyPointDel v.search_buffer i }
  else v

/-- `Vec.__delitem__` with a slice: delete the range from both fields. -/
def vecDelRange (v : VecFlat) (a b : Int) : VecFlat :=
  { vec := pySliceSet v.vec a b [],
    search_buffer := pySliceSet v.search_buffer a b [] }

/-- `Vec.append`. -/
def vecAppend (v : VecFlat) (c : Cell) : VecFlat :=
  { vec := v.vec ++ [c], search_buffer := v.search_buffer ++ [ordQ c] }

/-- `Vec.extend`: `self.vec.extend(values);
self.search_buffer.extend(_retrieve_bytes(values))`. -/
def vecExtend (v : VecFlat) (cs : List Cell) : VecFlat :=
  { vec := v.vec ++ cs, search_buffer := v.search_buffer ++ retrieveBytesUncached cs }

/-- Dispatch one public mutation on a `Vec` store. -/
def vecApply (m : MutOp) (v : VecFlat) : VecFlat :=
  match m with
  | .setPoint i c => vecSetPoint v i c
  | .setRange a b cs => vecSetRange v a b cs
  | .insertAt i c => vecInsert v i c
  | .delPoint i => vecDelPoint v i
  | .delRange a b => vecDelRange v a b
  | .appendC c => vecAppend v c
  | .extendC cs => vecExtend v cs

/-- Overwrite `l[start+i] := cs[i]` for each `i`, the point-update loop that
`TrieVec.__setitem__` runs through the pvector evolver when the replacement
has the same length as the slice. -/
def overwriteFrom {α : Type} (l : List α) (start : Nat) (cs : List α) : List α :=
  match cs with
  | [] => l
  | c :: rest => overwriteFrom (l.set start c) (start + 1) rest

/-- `TrieVec.__setitem__` with a slice: `start, stop, _ = index.indices(len)`;
equal-length replacements take the evolver point-update path, others rebuild
`self.vec[:start] + pvector(value) + self.vec[stop:]`; both then update the
buffer slice. -/
def trieSetRange (v : VecFlat) (a b : Int) (cs : List Cell) : VecFlat :=
  let (s, e) := pySliceBounds a b v.vec.length
  let vec' :=
    if (cs.length : Int) = (e : Int) - (s : Int) then overwriteFrom v.vec s cs
    else v.vec.take s ++ cs ++ v.vec.drop e
  { vec := vec', search_buffer := pySliceSet v.search_buffer a b (retrieveBytesUncached cs) }

/-- `TrieVec.__setitem__` with an integer index (evolver point update). -/
def trieSetPoint (v : VecFlat) (i : Int) (c : Cell) : VecFlat :=
  if pyIdxValid i v.vec.length then
    { vec := pyPointSet v.vec i c,
      search_buffer := pyPointSet v.search_buffer i (ordQ c) }
  else v

/-- Dispatch one public mutation on a `TrieVec` store.  `__delitem__` routes
through slice assignment (`self[i:i+1] = ()` / `self[index] = ()`), and
`insert` through `self[index:index] = (value,)`, exactly as in the source. -/
def trieApply (m : MutOp) (v : VecFlat) : VecFlat :=
  match m with
  | .setPoint i c => trieSetPoint v i c
  | .setRange a b cs => trieSetRange v a b cs
  | .insertAt i c => trieSetRange v i i [c]
  | .delPoint i => trieSetRange v i (i + 1) []
  | .delRange a b => trieSetRange v a b []
  | .appendC c => vecAppend v c
  | .extendC cs => vecExtend v cs

/-- Whether a public mutation resolves to non-reversed slice bounds on a
store of length `n` (always true for the point/append/extend/insert shapes;
a reversed range — `stop < start` after resolution — is what breaks
`TrieVec`). -/
def trieBoundsOk (m : MutOp) (n : Nat) : Prop :=
  match m with
  | .setRange a b _ => (pySliceBounds a b n).1 ≤ (pySliceBounds a b n).2
  | .delRange a b => (pySliceBounds a b n).1 ≤ (pySliceBounds a b n).2
  | .delPoint i => (pySliceBounds i (i + 1) n).1 ≤ (pySliceBounds i (i + 1) n).2
  | _ => True

/-- The store consistency invariant: the buffer is exactly the byte encoding
of the cells (same length, agreeing at every index). -/
def bufferConsistent (v : VecFlat) : Prop :=
  v.search_buffer = v.vec.map ordQ

instance (v : VecFlat) : Decidable (bufferConsistent v) := by
  unfold bufferConsistent; infer_instance

/-! ## Branch sharing of the search buffer (`Vec.branch`)

`Vec.branch` hands the *new* store the very `bytearray` object that `self`
holds whenever `self._branch_zero` is still true, and only copies it
otherwise; afterwards `self._branch_zero` is set to `False`.  Writes through
`__setitem__` etc. mutate the `bytearray` in place, so they are visible to
every store holding the same object.  We model `bytearray` identity with a
buffer heap indexed by `bufId`. -/

/-- The heap of live `bytearray` objects. -/
abbrev BufHeap : Type := List (List Nat)

/-- One branchable store: cells are held by value (Python copies the cell
*list* on branch), the search buffer by reference. -/
structure VecH where
  cells : List Cell
  bufId : Nat
  branchZero : Bool
  deriving DecidableEq, Repr

/-- The search buffer a store currently sees. -/
def bufOf (s : VecH) (h : BufHeap) : List Nat :=
  h.getD s.bufId []

/-- `Vec.branch`: returns `(self after the call, the new store, heap)`.
`nv.vec = copy(self.vec)`; `nv.search_buffer = self.search_buffer if
self._branch_zero else self.search_buffer.copy()`; `nv._branch_zero = True`;
`self._branch_zero = False`. -/
def branchV (s : VecH) (h : BufHeap) : VecH × VecH × BufHeap :=
  if s.branchZero then
    ({ s with branchZero := false },
     { cells := s.cells, bufId := s.bufId, branchZero := true }, h)
  else
    ({ s with branchZero := false },
     { cells := s.cells, bufId := h.length, branchZero := true }, h ++ [bufOf s h])

/-- Run one public mutation on a branchable store: the store's two fields are
the cell list and the heap-resident buffer; the mutated buffer is written back
to the same `bytearray`. -/
def applyMutH (m : MutOp) (s : VecH) (h : BufHeap) : VecH × BufHeap :=
  let v := vecApply m { vec := s.cells, search_buffer := bufOf s h }
  ({ s with cells := v.vec }, h.set s.bufId v.search_buffer)

/-- Whether the byte pattern `pat` occurs at the head of `l`. -/
def bytesMatchHere (pat l : List Nat) : Bool :=
  pat.isPrefixOf l

/-- Auxiliary scanner for `finditer` with a literal byte pattern: leftmost,
non-overlapping matches, as `re.finditer` yields them.  The fuel argument
(maintained equal to the length of the list being scanned) makes the
recursion structural. -/
def byteFindAux (pat : List Nat) : Nat → List Nat → Nat → List (Nat × Nat)
  | _, [], pos => if pat.isEmpty then [(pos, pos)] else []
  | 0, _ :: _, _ => []
  | fuel + 1, x :: rest, pos =>
      if bytesMatchHere pat (x :: rest) then
        (pos, pos + pat.length) ::
          byteFindAux pat fuel (rest.drop (pat.length - 1)) (pos + max 1 pat.length)
      else byteFindAux pat fuel rest (pos + 1)

/-- The span list of `finditer(pattern, search_buffer)` for a literal
pattern. -/
def byteFind (pat : List Nat) (buffer : List Nat) : List (Nat × Nat) :=
  byteFindAux pat buffer.length buffer 0

/-- `Vec.finditer` of a literal pattern: the observable result of a pattern
search on a store — it reads the store's heap-resident search buffer. -/
def searchSpans (pat : List Nat) (s : VecH) (h : BufHeap) : List (Nat × Nat) :=
  byteFind pat (bufOf s h)

/-! ## The global bytes cache (`enable_bytes_cache` in `src/core/vec.py`)

The cached `retrieve_bytes` looks the key (a sequence of `Cell`s) up in a
dict.  `Cell` defines `__eq__` without `__hash__`, so Python sets
`Cell.__hash__ = None` and cells — hence any nonempty tuple of cells — are
unhashable: the dict lookup raises `TypeError`.  The handler
`except TypeError: return retrieve_bytes(tuple(key))` re-invokes the function
on an equally unhashable key, so the call never returns normally
(`RecursionError` in CPython).  We model the non-terminating recursion with
explicit fuel: `none` means the call did not produce a byte string. -/

/-- Whether a Python tuple of cells is hashable: only the empty tuple is,
because `Cell` overrides `__eq__` and therefore has `__hash__ = None`. -/
def keyHashable (key : List Cell) : Bool :=
  key.isEmpty

/-- The cached `retrieve_bytes` under `enable_bytes_cache(True)`, with fuel
bounding the recursion depth of the `except TypeError` retry.  The cache dict
itself is irrelevant to the outcome on unhashable keys and is elided: a
hashable key computes `bytes(ord(c.quanta) for c in key)` (a hit returns the
identical cached value). -/
def retrieveBytesCached (fuel : Nat) (key : List Cell) : Option (List Nat) :=
  match fuel with
  | 0 => none
  | fuel + 1 =>
      if keyHashable key then some (retrieveBytesUncached key)
      else retrieveBytesCached fuel key

/-! ## Space edit primitives (`SpaceState1D` of `src/core/engine.py`)

Each modifier mutates `self.cells` and returns a `DeltaCell`; destroyed cells
are `deepcopy`d before being put in the delta so that branches sharing cell
objects can record different destruction events. -/

/-- `DeltaCell`: the cells destroyed and created by one modification. -/
structure DeltaCell where
  destroyed_cells : List Cell
  new_cells : List Cell
  deriving DecidableEq, Repr

/-- `DeltaCell.__bool__`. -/
def DeltaCell.toBool (d : DeltaCell) : Bool :=
  !d.destroyed_cells.isEmpty || !d.new_cells.isEmpty

/-- `SpaceState1D`: the 1-D space, a sequence of cells.  (In FlowLang runs the
sequence is a `Vec`; its search buffer is maintained alongside and agrees with
the cells whenever a freshly built space is matched, so the engine embedding
works on the cell sequence itself.) -/
structure SpaceState1D where
  cells : List Cell
  deriving DecidableEq, Repr

/-- `SpaceState1D.__bool__`: `bool(self.cells)`. -/
def spaceBool (s : SpaceState1D) : Bool :=
  !s.cells.isEmpty

/-- `SpaceState1D.substitute`: destroy the selected range (deep-copied into
the delta) and splice in `new`. -/
def substitute (s : SpaceState1D) (sel : Int × Int) (new : List Cell)
    (h : CellHeap) : SpaceState1D × DeltaCell × CellHeap :=
  let destroyed := pySliceGet s.cells sel.1 sel.2
  let (dcopy, h1) := deepcopyCells destroyed h
  ({ cells := pySliceSet s.cells sel.1 sel.2 new }, ⟨dcopy, new⟩, h1)

/-- `SpaceState1D.insert`: a negative position is resolved as
`len + pos + 1` (append-after-last convention), then `cells[pos:pos] = new`. -/
def insert (s : SpaceState1D) (pos : Int) (new : List Cell)
    (h : CellHeap) : SpaceState1D × DeltaCell × CellHeap :=
  let p := if pos < 0 then (s.cells.length : Int) + pos + 1 else pos
  ({ cells := pySliceSet s.cells p p new }, ⟨[], new⟩, h)

/-- The loop body of `SpaceState1D.overwrite`, walking the replacement cells:
a wildcard `'_'` is skipped entirely; in-range targets are recorded as
destroyed and overwritten; past-the-end targets are appended
(`except IndexError`). -/
def overwriteLoop (cells : List Cell) (idx : Int) (new : List Cell)
    (destroyed acc : List Cell) : List Cell × List Cell × List Cell :=
  match new with
  | [] => (cells, destroyed, acc)
  | c :: rest =>
      if c.quanta = '_' then overwriteLoop cells (idx + 1) rest destroyed acc
      else if h : 0 ≤ idx ∧ idx < (cells.length : Int) then
        overwriteLoop (cells.set idx.toNat c) (idx + 1) rest
          (destroyed ++ [cells.get ⟨idx.toNat, by omega⟩]) (acc ++ [c])
      else
        overwriteLoop (cells ++ [c]) (idx + 1) rest destroyed (acc ++ [c])

/-- `SpaceState1D.overwrite`: element-wise overwrite starting at `selector`
(negative resolved as `len + pos`); destroyed cells are deep-copied into the
delta. -/
def overwrite (s : SpaceState1D) (pos : Int) (new : List Cell)
    (h : CellHeap) : SpaceState1D × DeltaCell × CellHeap :=
  let p := if pos < 0 then (s.cells.length : Int) + pos else pos
  let (cells', destroyed, acc) := overwriteLoop s.cells p new [] []
  let (dcopy, h1) := deepcopyCells destroyed h
  ({ cells := cells' }, ⟨dcopy, acc⟩, h1)

/-- `SpaceState1D.delete`: destroy the selected range. -/
def delete (s : SpaceState1D) (sel : Int × Int)
    (h : CellHeap) : SpaceState1D × DeltaCell × CellHeap :=
  let destroyed := pySliceGet s.cells sel.1 sel.2
  let (dcopy, h1) := deepcopyCells destroyed h
  ({ cells := pySliceSet s.cells sel.1 sel.2 [] }, ⟨dcopy, []⟩, h1)

/-- `SpaceState1D.shift`: move the block at `sel` by `k` (negative = left);
pure reordering, the delta is empty. -/
def shift (s : SpaceState1D) (sel : Int × Int) (k : Int)
    (h : CellHeap) : SpaceState1D × DeltaCell × CellHeap :=
  let n := s.cells.length
  let e := if sel.2 < 0 then (n : Int) + sel.2 else sel.2
  let st := if sel.1 < 0 then (n : Int) + sel.1 else sel.1
  let cells' :=
    if k = 0 then s.cells
    else if k < 0 then
      let ka : Int := -k
      let before := pySliceGet s.cells (st - ka) st
      let c1 := pySliceSet s.cells e e before
      pySliceSet c1 (st - ka) st []
    else
      let temp := pySliceGet s.cells e (e + k)
      let c1 := pySliceSet s.cells e (e + k) []
      pySliceSet c1 st st temp
  ({ cells := cells' }, ⟨[], []⟩, h)

/-- Decidable equality for `Except` results. -/
instance {ε α : Type} [DecidableEq ε] [DecidableEq α] : DecidableEq (Except ε α) :=
  fun a b =>
    match a, b with
    | .ok x, .ok y =>
        if h : x = y then isTrue (by rw [h])
        else isFalse (fun hc => Except.noConfusion hc fun hx => absurd hx h)
    | .error x, .error y =>
        if h : x = y then isTrue (by rw [h])
        else isFalse (fun hc => Except.noConfusion hc fun hx => absurd hx h)
    | .ok _, .error _ => isFalse (fun hc => Except.noConfusion hc)
    | .error _, .ok _ => isFalse (fun hc => Except.noConfusion hc)

/-- The chained interval-overlap test of `_conflict_detector` and
`SpaceState1D.swap`: `start1 < start2 < end1 or start1 < end2 < end1 or
start2 < start1 < end2 or start2 < end1 < end2`. -/
def overlapTest (m1 m2 : Int × Int) : Bool :=
  let (s1, e1) := m1
  let (s2, e2) := m2
  (decide (s1 < s2) && decide (s2 < e1)) || (decide (s1 < e2) && decide (e2 < e1)) ||
  (decide (s2 < s1) && decide (s1 < e2)) || (decide (s2 < e1) && decide (e1 < e2))

/-- The negative-endpoint resolution `swap` performs on each selector
(`if end < 0: end = len + end`, same for `start`). -/
def swapResolve (sel : Int × Int) (n : Nat) : Int × Int :=
  ((if sel.1 < 0 then (n : Int) + sel.1 else sel.1),
   (if sel.2 < 0 then (n : Int) + sel.2 else sel.2))

/-- Whether an `Except` result is an error (a raised Python exception). -/
def isError {ε α : Type} : Except ε α → Bool
  | .error _ => true
  | .ok _ => false

/-- `SpaceState1D.swap`: resolve negative endpoints, reject overlap via the
chained strict comparisons of the source, then exchange the two ranges
(right range first).  The delta is empty. -/
def swap (s : SpaceState1D) (sel1 sel2 : Int × Int) :
    Except String (SpaceState1D × DeltaCell) :=
  let n := s.cells.length
  let r1 := swapResolve sel1 n
  let r2 := swapResolve sel2 n
  if overlapTest r1 r2 then
    .error "The selector indices cannot overlap!"
  else
    let (a1, b1, a2, b2) :=
      if r2.1 < r1.1 then (r2.1, r2.2, r1.1, r1.2) else (r1.1, r1.2, r2.1, r2.2)
    let temp1 := pySliceGet s.cells a1 b1
    let temp2 := pySliceGet s.cells a2 b2
    let c1 := pySliceSet s.cells a2 b2 temp1
    let c2 := pySliceSet c1 a1 b1 temp2
    .ok ({ cells := c2 }, ⟨[], []⟩)

/-- `SpaceState1D.reverse`: reverse the selected range in place; empty delta. -/
def reverseR (s : SpaceState1D) (sel : Int × Int)
    (h : CellHeap) : SpaceState1D × DeltaCell × CellHeap :=
  ({ cells := pySliceSet s.cells sel.1 sel.2 (pySliceGet s.cells sel.1 sel.2).reverse },
   ⟨[], []⟩, h)

/-! ## Rules (`BaseRule` of `src/flow_lang/implementation.py`)

A rule kind binds one of the six space primitives to the generic
match/apply protocol (`SubstitutionRule` … `ReverseRule`).  The embedding
covers rules that are not merged into a chain (`chain == [self]`, the
constructor default), so the per-match rule lookup `rule_match.metadata[idx]`
always yields the rule itself. -/

inductive RuleKind where
  | substitution
  | insertion
  | overwriteK
  | deletion
  | shifting
  | reverseK
  deriving DecidableEq, Repr

/-- A `Selector`: FlowLang literal selectors arrive as regex strings over the
search buffer (with `'_'` already replaced by the regex wildcard `'.'` by
`interpret_selector`); a range selector is an explicit span. -/
inductive SelectorM where
  | literal (pat : List Char)
  | rangeSel (sel : Int × Int)
  deriving DecidableEq, Repr

/-- A `Target`: a literal replacement cell sequence or an integer (shift). -/
inductive TargetM where
  | lit (cells : List Cell)
  | intT (k : Int)
  deriving DecidableEq, Repr

/-- `BaseRule` with the fields read by `match`/`apply` and by
`RuleSet.apply`.  String-valued policies keep the source's string encoding so
that the comparisons in `_conflict_detector` and `apply` are mirrored
verbatim; `lifespan = none` models the integer infinity `INF` (which
`-= 1` and `== 0` leave alone). -/
structure RuleM where
  kind : RuleKind
  selectors : List SelectorM
  target : List TargetM
  disabled : Bool := false
  group : Nat := 0
  group_break : Bool := true
  always_apply : Bool := false
  space_range : Nat × Nat := (0, 1)
  match_range : Nat × Nat := (0, 1)
  offset : Int := 0
  cmp : String := "ignore"
  no_causality_tracking : Bool := false
  no_initial_branch : Bool := false
  no_delta_submit : Bool := false
  parallel_execution_limit : Nat := 1
  branch_limit : Nat := 0
  branch_origin : String := "prev"
  crp : String := "ignore"
  lifespan : Option Int := none
  deriving DecidableEq, Repr

/-- `BaseRule._conflict_detector`: walk the already-accepted spans and record
the indices to flag for every overlap with the new span `m`.  Note the source
tests `self.crp` (the conflict *resolution* policy) in the `"this"` and
`"og"` arms and `self.cmp` (the conflict *marking* policy) only in the
`"both"` arm. -/
def conflict_detector (r : RuleM) (current_matches : List (Int × Int))
    (m : Int × Int) : Finset Nat :=
  let this_idx := current_matches.length
  (current_matches.enum).foldl
    (fun conflicts p =>
      let (og_idx, m2) := p
      if overlapTest m m2 then
        if r.crp = "this" then conflicts ∪ {this_idx}
        else if r.crp = "og" then conflicts ∪ {og_idx}
        else if r.cmp = "both" then conflicts ∪ {this_idx} ∪ {og_idx}
        else conflicts
      else conflicts)
    ∅

/-- Does the literal pattern match at the head of the text?  `'.'` is the
regex any-character wildcard (FlowLang's `'_'`). -/
def charMatchHere : List Char → List Char → Bool
  | [], _ => true
  | _ :: _, [] => false
  | p :: ps, c :: cs => (decide (p = '.') || decide (p = c)) && charMatchHere ps cs

/-- Scanner for `finditer` with a literal pattern: leftmost, non-overlapping
matches as `re.finditer` yields them (fuel as in `byteFindAux`). -/
def charFindAux (pat : List Char) : Nat → List Char → Nat → List (Nat × Nat)
  | _, [], pos => if pat.isEmpty then [(pos, pos)] else []
  | 0, _ :: _, _ => []
  | fuel + 1, x :: rest, pos =>
      if charMatchHere pat (x :: rest) then
        (pos, pos + pat.length) ::
          charFindAux pat fuel (rest.drop (pat.length - 1)) (pos + max 1 pat.length)
      else charFindAux pat fuel rest (pos + 1)

/-- All spans of a literal pattern in a text (the result of
`space.cells.finditer(pattern)`:  the search buffer agrees with the cells'
quanta on the freshly built spaces the engine matches, so the scan runs on
the quanta). -/
def litFind (pat : List Char) (text : List Char) : List (Nat × Nat) :=
  charFindAux pat text.length text 0

/-- `RuleMatch` (without the chain metadata: for unchained rules the metadata
entry for every match is the rule itself). -/
structure RuleMatch where
  space : SpaceState1D
  match_spans : List (Int × Int)
  conflicts : Finset Nat
  deriving DecidableEq

/-- The spans a selector's finder yields on a space. -/
def selectorFinds (sel : SelectorM) (space : SpaceState1D) : List (Int × Int) :=
  match sel with
  | .literal pat =>
      (litFind pat (space.cells.map Cell.quanta)).map (fun p => ((p.1 : Int), (p.2 : Int)))
  | .rangeSel s => [s]

/-- The inner span loop of `BaseRule.match` for one selector: apply `offset`,
filter by `match_range` (skip below the lower bound, break at the upper), run
the conflict detector when `cmp != 'ignore'`, and accumulate the span. -/
def matchInner (r : RuleM) : List (Int × Int) → Nat → List (Int × Int) → Finset Nat →
    List (Int × Int) × Finset Nat
  | [], _, ms, conflicts => (ms, conflicts)
  | span :: rest, j, ms, conflicts =>
      let span := (span.1 + r.offset, span.2 + r.offset)
      if r.match_range.1 > j then matchInner r rest (j + 1) ms conflicts
      else if j ≥ r.match_range.2 then (ms, conflicts)
      else
        let conflicts :=
          if r.cmp ≠ "ignore" then conflicts ∪ conflict_detector r ms span
          else conflicts
        matchInner r rest (j + 1) (ms ++ [span]) conflicts

/-- The selector loop of `BaseRule.match` over one space. -/
def matchSelectors (r : RuleM) (space : SpaceState1D) :
    List SelectorM → List (Int × Int) → Finset Nat → List (Int × Int) × Finset Nat
  | [], ms, conflicts => (ms, conflicts)
  | sel :: rest, ms, conflicts =>
      let (m1, c1) := matchInner r (selectorFinds sel space) 0 ms conflicts
      matchSelectors r space rest m1 c1

/-- The space loop of `BaseRule.match`: spaces outside `space_range` are
skipped (below) or end the scan (at or above the upper bound); a disabled
rule contributes no matches; spaces with matches produce a `RuleMatch`. -/
def matchSpaces (r : RuleM) : List SpaceState1D → Nat → List RuleMatch
  | [], _ => []
  | space :: rest, i =>
      if r.space_range.1 > i then matchSpaces r rest (i + 1)
      else if i ≥ r.space_range.2 then []
      else
        let (ms, conflicts) :=
          if r.disabled then ([], ∅) else matchSelectors r space r.selectors [] ∅
        if ms.isEmpty then matchSpaces r rest (i + 1)
        else ⟨space, ms, conflicts⟩ :: matchSpaces r rest (i + 1)

/-- `BaseRule.match`. -/
def matchRule (r : RuleM) (spaces : List SpaceState1D) : List RuleMatch :=
  matchSpaces r spaces 0

/-- `BaseRule._aggregate_DeltaCells`. -/
def aggregate_DeltaCells (delta_cells : List DeltaCell) : DeltaCell :=
  match delta_cells with
  | [d] => d
  | ds => ⟨ds.flatMap DeltaCell.destroyed_cells, ds.flatMap DeltaCell.new_cells⟩

/-- The literal cells of a target (`Target.target` for the sequence-valued
rule kinds). -/
def targetCells : Option TargetM → List Cell
  | some (.lit cs) => cs
  | _ => []

/-- The integer of a target (`Target.target` for `ShiftingRule`). -/
def targetInt : Option TargetM → Int
  | some (.intT k) => k
  | _ => 0

/-- `_call_space_modifier` of the six concrete rule kinds.  The
sequence-valued kinds `deepcopy` the target before handing it to the space
primitive. -/
def call_space_modifier (kind : RuleKind) (space : SpaceState1D) (sel : Int × Int)
    (t : Option TargetM) (h : CellHeap) : SpaceState1D × DeltaCell × CellHeap :=
  match kind with
  | .substitution =>
      let (tc, h1) := deepcopyCells (targetCells t) h
      substitute space sel tc h1
  | .insertion =>
      let (tc, h1) := deepcopyCells (targetCells t) h
      insert space sel.1 tc h1
  | .overwriteK =>
      let (tc, h1) := deepcopyCells (targetCells t) h
      overwrite space sel.1 tc h1
  | .deletion => delete space sel h
  | .shifting => shift space sel (targetInt t) h
  | .reverseK => reverseR space sel h

/-- The mutable loop state of one `rule_match` iteration in `BaseRule.apply`. -/
structure ApplySt where
  submitted_spaces : List (Option SpaceState1D)
  submitted_cell_deltas : List DeltaCell
  current_space : SpaceState1D
  cell_deltas : List DeltaCell
  pl : Nat
  bl : Nat
  deriving DecidableEq, Repr

/-- The target selected for span index `idx`:
`self.target[idx % len(self.target)].target`, or `None` without targets. -/
def targetFor (r : RuleM) (idx : Nat) : Option TargetM :=
  if r.target.isEmpty then none else r.target.get? (idx % r.target.length)

/-- The span loop of `BaseRule.apply` over one `RuleMatch`, mirroring the
source statement for statement.  `break` is rendered by returning the state
without touching the remaining spans. -/
def applyLoop (r : RuleM) (prev : SpaceState1D) (conflicts : Finset Nat)
    (matchesBound : Nat) : List (Nat × (Int × Int)) → ApplySt → CellHeap →
    ApplySt × CellHeap
  | [], st, h => (st, h)
  | (idx, sel) :: rest, st, h =>
      let t := targetFor r idx
      if r.parallel_execution_limit > 1 ∧ r.crp ≠ "ignore" ∧ idx ∈ conflicts then
        if r.crp = "branch" ∨ r.crp = "branch_nbl" then
          if r.crp = "branch" ∧ st.bl > r.branch_limit then
            applyLoop r prev conflicts matchesBound rest st h
          else
            let base := if r.branch_origin = "prev" then prev else st.current_space
            let (branch, dc, h1) := call_space_modifier r.kind base sel t h
            applyLoop r prev conflicts matchesBound rest
              { st with
                submitted_spaces :=
                  st.submitted_spaces ++ [if r.no_delta_submit then none else some branch],
                submitted_cell_deltas :=
                  st.submitted_cell_deltas ++
                    [if r.no_causality_tracking then ⟨[], []⟩ else dc] } h1
        else if r.crp = "skip" then applyLoop r prev conflicts matchesBound rest st h
        else if r.crp = "break" then (st, h)
        else applyLoop r prev conflicts matchesBound rest st h
      else
        let (cur1, dc, h1) := call_space_modifier r.kind st.current_space sel t h
        let cds := st.cell_deltas ++ [dc]
        let pl1 := st.pl + 1
        if pl1 = r.parallel_execution_limit ∨ idx = matchesBound then
          let submitted :=
            st.submitted_spaces ++ [if r.no_delta_submit then none else some cur1]
          let sdeltas :=
            st.submitted_cell_deltas ++
              [if r.no_causality_tracking then ⟨[], []⟩ else aggregate_DeltaCells cds]
          if st.bl ≠ r.branch_limit then
            let cur2 := if r.branch_origin = "prev" then prev else cur1
            applyLoop r prev conflicts matchesBound rest
              ⟨submitted, sdeltas, cur2, [], 0, st.bl + 1⟩ h1
          else (⟨submitted, sdeltas, cur1, [], 0, st.bl⟩, h1)
        else
          applyLoop r prev conflicts matchesBound rest
            { st with current_space := cur1, cell_deltas := cds, pl := pl1 } h1

/-- `DeltaSpace`. -/
structure DeltaSpace where
  input_space : SpaceState1D
  output_space : List (Option SpaceState1D)
  cell_deltas : List DeltaCell
  deriving DecidableEq, Repr

/-- `DeltaSpace.__bool__`: `any(self.output_space) or any(self.cell_deltas)`
(a space is truthy when its cell list is nonempty). -/
def DeltaSpace.toBool (d : DeltaSpace) : Bool :=
  d.output_space.any (fun o => match o with | some s => spaceBool s | none => false) ||
    d.cell_deltas.any DeltaCell.toBool

/-- The `rule_match` loop of `BaseRule.apply`: each match starts from a fresh
working copy of its input space (`copy(prev_space)`; the embedding covers the
default `no_initial_branch = False` — the in-place variant aliases the input
space) and flushes one `DeltaSpace` per match. -/
def applyMatches (r : RuleM) : List RuleMatch → CellHeap → List DeltaSpace × CellHeap
  | [], h => ([], h)
  | rm :: rest, h =>
      let prev := rm.space
      let st0 : ApplySt := ⟨[], [], prev, [], 0, 0⟩
      let (st, h1) :=
        applyLoop r prev rm.conflicts (rm.match_spans.length - 1) rm.match_spans.enum st0 h
      let (ds, h2) := applyMatches r rest h1
      (⟨prev, st.submitted_spaces, st.submitted_cell_deltas⟩ :: ds, h2)

/-- The result of `BaseRule.apply`: the returned `DeltaSpace`s plus the
mutated rule (lifespan bookkeeping) and heap. -/
structure ApplyResult where
  modified_spaces : List DeltaSpace
  rule : RuleM
  heap : CellHeap
  deriving Repr

/-- `BaseRule.apply`: run the matches, then `self.lifespan -= 1`
unconditionally (infinity unaffected) and set `disabled` when the lifespan
just reached zero and the call appended any `DeltaSpace`. -/
def applyRule (r : RuleM) (rule_matches : List RuleMatch) (h : CellHeap) : ApplyResult :=
  let (ms, h1) := applyMatches r rule_matches h
  let life : Option Int := r.lifespan.map (· - 1)
  let disabled := if life = some 0 ∧ ¬ ms.isEmpty then true else r.disabled
  ⟨ms, { r with lifespan := life, disabled := disabled }, h1⟩

/-! ## RuleSet, Event, Flow (`src/core/engine.py`) -/

/-- `DeltaSpaces`: the deltas one rule produced in one step. -/
structure DeltaSpaces where
  space_deltas : List DeltaSpace
  rule : Option RuleM
  deriving DecidableEq, Repr

/-- `DeltaSpaces.__bool__`. -/
def DeltaSpaces.toBool (d : DeltaSpaces) : Bool :=
  d.space_deltas.any DeltaSpace.toBool

/-- `group_management.setdefault(rule.group, True)`. -/
def groupsGet (gs : List (Nat × Bool)) (g : Nat) : List (Nat × Bool) × Bool :=
  match gs.find? (fun p => p.1 = g) with
  | some p => (gs, p.2)
  | none => (gs ++ [(g, true)], true)

/-- `group_management[rule.group] = False`. -/
def groupsSet (gs : List (Nat × Bool)) (g : Nat) (b : Bool) : List (Nat × Bool) :=
  gs.map (fun p => if p.1 = g then (p.1, b) else p)

/-- The rule loop of `RuleSet.apply`: skip disabled rules and rules of
deactivated groups (unless `always_apply`), match, apply, record truthy
results, and deactivate the group on `group_break`.  Returns the recorded
`DeltaSpaces` in rule order, the rules with their post-call state, and the
heap. -/
def ruleSetLoop : List RuleM → List SpaceState1D → List (Nat × Bool) → CellHeap →
    List DeltaSpaces × List RuleM × CellHeap
  | [], _, _, h => ([], [], h)
  | r :: rest, spaces, groups, h =>
      if r.disabled then
        let (ds, rs, h1) := ruleSetLoop rest spaces groups h
        (ds, r :: rs, h1)
      else
        let (groups1, active) := groupsGet groups r.group
        if ¬ active ∧ ¬ r.always_apply then
          let (ds, rs, h1) := ruleSetLoop rest spaces groups1 h
          (ds, r :: rs, h1)
        else
          let rule_matches := matchRule r spaces
          if rule_matches.isEmpty then
            let (ds, rs, h1) := ruleSetLoop rest spaces groups1 h
            (ds, r :: rs, h1)
          else
            let res := applyRule r rule_matches h
            let sd : DeltaSpaces := ⟨res.modified_spaces, some res.rule⟩
            if sd.toBool then
              let groups2 :=
                if res.rule.group_break then groupsSet groups1 r.group false else groups1
              let (ds, rs, h1) := ruleSetLoop rest spaces groups2 res.heap
              (sd :: ds, res.rule :: rs, h1)
            else
              let (ds, rs, h1) := ruleSetLoop rest spaces groups1 res.heap
              (ds, res.rule :: rs, h1)

/-- `RuleSet.apply`. -/
def ruleSetApply (rules : List RuleM) (spaces : List SpaceState1D) (h : CellHeap) :
    List DeltaSpaces × List RuleM × CellHeap :=
  ruleSetLoop rules spaces [] h

/-- `Event`. -/
structure Event where
  time : Int
  space_deltas : List DeltaSpaces
  inert : Bool := false
  causal_distance_to_creation : Int := 0
  deriving DecidableEq, Repr

instance : Inhabited Event := ⟨⟨0, [], false, 0⟩⟩

/-- `Event.affected_cells`: every truthy `DeltaCell` of the event. -/
def Event.affected_cells (e : Event) : List DeltaCell :=
  e.space_deltas.flatMap fun r =>
    r.space_deltas.flatMap fun sd => sd.cell_deltas.filter DeltaCell.toBool

/-- `Event.causally_connected_events`: the `created_at` of every destroyed
cell the event recorded (`cell.created_at` is a heap read). -/
def Event.causally_connected_events (e : Event) (h : CellHeap) : List Int :=
  e.affected_cells.flatMap fun d => d.destroyed_cells.map fun c => (readMeta c h).created_at

/-- `Event.spaces`: all non-`None` output spaces of the event. -/
def Event.spaces (e : Event) : List SpaceState1D :=
  e.space_deltas.flatMap fun r =>
    r.space_deltas.flatMap fun sd => sd.output_space.filterMap id

/-- `Flow`: the event list, the rule set, and the cell-metadata heap the run
mutates. -/
structure Flow where
  events : List Event
  rule_set : List RuleM
  heap : CellHeap
  deriving Repr

/-- `Flow.current_event`. -/
def currentEvent (f : Flow) : Event :=
  f.events.getLast?.getD default

/-- `Flow.__init__`: wrap the initial spaces in the time-0 event (each space
is its own output with one empty delta) and stamp `created_at = 0` on every
initial cell. -/
def flowInit (rules : List RuleM) (initial_space : List SpaceState1D)
    (h : CellHeap) : Flow :=
  let ev0 : Event :=
    { time := 0,
      space_deltas := [⟨initial_space.map fun i => ⟨i, [some i], [⟨[], []⟩]⟩, none⟩] }
  let h1 := initial_space.foldl
    (fun hh sp => sp.cells.foldl
      (fun hh2 c => writeMeta c { readMeta c hh2 with created_at := 0 } hh2) hh) h
  { events := [ev0], rule_set := rules, heap := h1 }

/-- Stamp the causality metadata for one new event: every created cell's
`created_at` and every destroyed cell's `destroyed_at` become the new event's
index. -/
def stampDeltas (applied : List DeltaSpaces) (idx : Int) (h : CellHeap) : CellHeap :=
  applied.foldl
    (fun hh ar => ar.space_deltas.foldl
      (fun hh2 sd => sd.cell_deltas.foldl
        (fun hh3 dc =>
          let hh4 := dc.new_cells.foldl
            (fun a c => writeMeta c { readMeta c a with created_at := idx } a) hh3
          dc.destroyed_cells.foldl
            (fun a c => writeMeta c { readMeta c a with destroyed_at := idx } a) hh4)
        hh2)
      hh)
    h

/-- Python `min(iterable, default=-1)` over causal distances. -/
def minPrev (cds : List Int) : Int :=
  match cds with
  | [] => -1
  | x :: xs => xs.foldl min x

/-- Mark the latest event inert (`self.current_event.inert = True`). -/
def markInert (evs : List Event) : List Event :=
  match evs.getLast? with
  | none => evs
  | some e => evs.set (evs.length - 1) { e with inert := true }

/-- `Flow.evolve`: apply the rule set to the current spaces; with no
modifications mark the current event inert, otherwise append the new event,
stamp cell birth/death metadata with its index, and set its causal distance
to `min(predecessor distances, default -1) + 1`. -/
def evolve (f : Flow) : Flow :=
  let (applied, rules1, h1) := ruleSetApply f.rule_set (currentEvent f).spaces f.heap
  if ¬ applied.any DeltaSpaces.toBool then
    { events := markInert f.events, rule_set := rules1, heap := h1 }
  else
    let newEvent : Event := { time := (currentEvent f).time + 1, space_deltas := applied }
    let idx : Int := f.events.length
    let h2 := stampDeltas applied idx h1
    let preds := newEvent.causally_connected_events h2
    let events1 := f.events ++ [newEvent]
    let cds := preds.map fun e =>
      (events1.getD e.toNat default).causal_distance_to_creation
    let newEvent1 := { newEvent with causal_distance_to_creation := minPrev cds + 1 }
    { events := f.events ++ [newEvent1], rule_set := rules1, heap := h2 }

/-- `Flow.evolve_n`. -/
def evolveN (f : Flow) : Nat → Flow
  | 0 => f
  | n + 1 => evolveN (evolve f) n

/-- `Flow.evolve_until_inert` with its hard step cap. -/
def evolveUntilInert (f : Flow) : Nat → Flow
  | 0 => f
  | n + 1 => if (currentEvent f).inert then f else evolveUntilInert (evolve f) n

/-- A driver call on a `Flow`. -/
inductive Cmd where
  | evolveC
  | evolveNC (n : Nat)
  | untilInertC (maxSteps : Nat)
  deriving DecidableEq, Repr

/-- Run one driver call. -/
def runCmd (f : Flow) : Cmd → Flow
  | .evolveC => evolve f
  | .evolveNC n => evolveN f n
  | .untilInertC m => evolveUntilInert f m

/-- Run a sequence of driver calls. -/
def runCmds (f : Flow) : List Cmd → Flow
  | [] => f
  | c :: cs => runCmds (runCmd f c) cs

/-! ## Concrete instances used by the claims -/

/-- The initial `"AB"` cells of the causality scenario (refs 0, 1). -/
def abInit : List Cell × CellHeap := allocCells ['A', 'B'] []

/-- The target cells of the rule `ABA -> AAB` (refs 2–4). -/
def targetAAB : List Cell × CellHeap := allocCells ['A', 'A', 'B'] abInit.2

/-- The target cells of the rule `A -> ABA` (refs 5–7). -/
def targetABA : List Cell × CellHeap := allocCells ['A', 'B', 'A'] targetAAB.2

/-- The rule `ABA -> AAB` with default flags, as the interpreter builds it. -/
def ruleABAtoAAB : RuleM :=
  { kind := .substitution, selectors := [.literal ['A', 'B', 'A']],
    target := [.lit targetAAB.1] }

/-- The rule `A -> ABA` with default flags. -/
def ruleAtoABA : RuleM :=
  { kind := .substitution, selectors := [.literal ['A']],
    target := [.lit targetABA.1] }

/-- The flow of the causality scenario: initial space `"AB"`, rules
`["ABA -> AAB", "A -> ABA"]`. -/
def abFlow : Flow :=
  flowInit [ruleABAtoAAB, ruleAtoABA] [⟨abInit.1⟩] targetABA.2

/-- The scenario flow after one `evolve()` step. -/
def abFlow1 : Flow := evolve abFlow

/-- Cells `A B C D E` (with distinct refs) used by concrete inputs. -/
def cellsABCDE : List Cell :=
  (['A', 'B', 'C', 'D', 'E'].enum).map fun p => ⟨p.2, p.1⟩

/-- A one-cell store `"A"` whose buffer is `bytearray` 0 of the buffer heap,
not yet branched. -/
def storeA : VecH := ⟨[⟨'A', 0⟩], 0, true⟩

/-- The buffer heap holding `storeA`'s buffer. -/
def heapA : BufHeap := [[65]]

/-- `B1 = S.branch()` on `storeA`: `(S after, B1, heap)`. -/
def branch1 : VecH × VecH × BufHeap := branchV storeA heapA

/-- `B2 = S.branch()` after `branch1`: `(S after, B2, heap)`. -/
def branch2 : VecH × VecH × BufHeap := branchV branch1.1 branch1.2.2

/-- The point mutation `B1[0] = Cell('B')` after both branches. -/
def branch1Mutated : VecH × BufHeap :=
  applyMutH (.setPoint 0 ⟨'B', 0⟩) branch1.2.1 branch2.2.2

/-- A substitution rule (target `"X"`) with conflict policy `skip`, the
default `parallel_execution_limit = 1`, and `branch_limit = 1`. -/
def skipRulePL1 : RuleM :=
  { kind := .substitution, selectors := [], target := [.lit [⟨'X', 100⟩]],
    crp := "skip", branch_limit := 1 }

/-- A rule match on `"ABCDE"` with spans `[0,1)` and `[2,3)` and span index 1
recorded as a conflict. -/
def conflictedMatch : RuleMatch := ⟨⟨cellsABCDE⟩, [(0, 1), (2, 3)], {1}⟩

/-- A rule with remaining lifespan 3. -/
def lifespan3Rule : RuleM :=
  { kind := .substitution, selectors := [], target := [], lifespan := some 3 }

/-- A rule with `conflict_mark_policy = mark-original` (`cmp = "og"`) and the
legal resolution policy `skip`. -/
def markOriginalRule : RuleM :=
  { kind := .substitution, selectors := [], target := [], cmp := "og", crp := "skip" }

/-- A rule with `conflict_mark_policy = mark-new` (`cmp = "this"`). -/
def markNewRule : RuleM :=
  { kind := .substitution, selectors := [], target := [], cmp := "this", crp := "skip" }

/-- A rule with `conflict_mark_policy = mark-both`. -/
def markBothRule : RuleM :=
  { kind := .substitution, selectors := [], target := [], cmp := "both", crp := "skip" }

/-- A substitution rule with conflict policy `skip` and
`parallel_execution_limit = 2`. -/
def skipRulePL2 : RuleM :=
  { kind := .substitution, selectors := [], target := [.lit [⟨'X', 100⟩]],
    crp := "skip", parallel_execution_limit := 2 }

/-- A fresh apply-loop state over the space `"ABCDE"`. -/
def abcdeSt : ApplySt := ⟨[], [], ⟨cellsABCDE⟩, [], 0, 0⟩

/-- Replacement cells `"XYZ"` used by the round-trip witness. -/
def xyzCells : List Cell := [⟨'X', 90⟩, ⟨'Y', 91⟩, ⟨'Z', 92⟩]

/-- A consistent two-cell store `"AB"`. -/
def vecAB : VecFlat := ⟨[⟨'A', 0⟩, ⟨'B', 1⟩], [65, 66]⟩

/-- The deep copy of the destroyed initial `'A'` cell of the causality
scenario (allocated at ref 11 during the first `evolve`). -/
def abDestroyedCopy : Cell := ⟨'A', 11⟩

/-- The delta cells of one step's results, flattened in the order
`evolve`'s stamping loops visit them. -/
def deltaCellsOf (applied : List DeltaSpaces) : List DeltaCell :=
  applied.flatMap fun ar => ar.space_deltas.flatMap fun sd => sd.cell_deltas

/-- All cells recorded as destroyed in one step's results. -/
def destroyedOf (applied : List DeltaSpaces) : List Cell :=
  (deltaCellsOf applied).flatMap DeltaCell.destroyed_cells

/-- All cells recorded as created in one step's results. -/
def createdOf (applied : List DeltaSpaces) : List Cell :=
  (deltaCellsOf applied).flatMap DeltaCell.new_cells

/-- The stamping `evolve` performs for one delta cell: `created_at := idx` on
the new cells, then `destroyed_at := idx` on the destroyed cells. -/
def stampOne (idx : Int) (hh : CellHeap) (dc : DeltaCell) : CellHeap :=
  dc.destroyed_cells.foldl
    (fun a c => writeMeta c { readMeta c a with destroyed_at := idx } a)
    (dc.new_cells.foldl
      (fun a c => writeMeta c { readMeta c a with created_at := idx } a) hh)

/-- The event-index invariant: the event list is nonempty and
`events[i].time == i` at every index. -/
def eventTimesOk (f : Flow) : Prop :=
  f.events ≠ [] ∧ ∀ i, i < f.events.length → (f.events.getD i default).time = (i : Int)

/-! ## Theorems -/

/-- C1 (counterexample): with store `S = "A"` and branches `B1 = S.branch()`,
`B2 = S.branch()`, the point mutation `B1[0] = Cell('B')` changes the result
of S's pattern search for byte `66` (`'B'`) from no match to a match at
`(0, 1)` — `branch` hands `B1` the very buffer object `S` holds, so a
post-branch write is visible in `S` and the claimed branch independence
fails. -/
theorem C1_counterexample :
    searchSpans [66] branch2.1 branch1Mutated.2 ≠ searchSpans [66] branch2.1 branch2.2.2 ∧
    searchSpans [66] branch2.1 branch2.2.2 = [] ∧
    searchSpans [66] branch2.1 branch1Mutated.2 = [(0, 1)] := by decide

/-- C3 (counterexample): a rule with `conflict_resolution_policy = skip` and
the default `parallel_execution_limit = 1` still applies a conflicted span:
on `"ABCDE"` with spans `[0,1)`, `[2,3)` and span 1 in the conflict set, the
second emitted output carries the edit `'X'` at index 2 — the conflict
handling in `apply` is guarded by `parallel_execution_limit > 1`, so the
claim does not hold for every value of `parallel_limit`. -/
theorem C3_counterexample :
    (1 : Nat) ∈ conflictedMatch.conflicts ∧ skipRulePL1.crp = "skip" ∧
    skipRulePL1.parallel_execution_limit = 1 ∧
    ((applyRule skipRulePL1 [conflictedMatch] []).modified_spaces.map fun d =>
        d.output_space.map (Option.map fun s => s.cells.map Cell.quanta)) =
      [[some ['X', 'B', 'C', 'D', 'E'], some ['A', 'B', 'X', 'D', 'E']]] := by decide

/-- C4 (evaluation at the failing input): two overlapping spans `[0,3)` and
`[2,5)` are flagged in nobody's conflict set under `mark-original`
(`cmp = "og"`) and under `mark-new` (`cmp = "this"`), because
`_conflict_detector` tests `self.crp` — never equal to `"og"`/`"this"` for a
legal resolution policy — in those arms; only `cmp = "both"` flags both
indices. -/
theorem C4_conflict_marking_eval :
    conflict_detector markOriginalRule [(0, 3)] (2, 5) = ∅ ∧
    conflict_detector markNewRule [(0, 3)] (2, 5) = ∅ ∧
    conflict_detector markBothRule [(0, 3)] (2, 5) = {0, 1} := by decide

/-- C6 (counterexample): `swap((1,3),(1,3))` on `"ABCDE"` succeeds — no
error is raised although the two (identical) ranges overlap as intervals
(`max(1,1) < min(3,3)`), because the chained strict comparisons of the
overlap check all fail on identical endpoints. -/
theorem C6_counterexample :
    swap ⟨cellsABCDE⟩ (1, 3) (1, 3) = .ok (⟨cellsABCDE⟩, ⟨[], []⟩) ∧
    max (1 : Int) 1 < min 3 3 := by decide

/-- C7 (evaluation at the failing input): with the bytes cache enabled the
cached `retrieve_bytes` never returns a byte string on a nonempty key — the
key is unhashable (`Cell` overrides `__eq__` without `__hash__`), the dict
lookup raises `TypeError` and the handler retries the same lookup forever —
while the uncached path returns the byte encoding. -/
theorem C7_cache_divergence :
    ∀ (fuel : Nat) (c : Cell) (key : List Cell),
      retrieveBytesCached fuel (c :: key) = none ∧
      retrieveBytesUncached (c :: key) = ordQ c :: key.map ordQ := by
  intro fuel c key
  refine ⟨?_, rfl⟩
  induction fuel with
  | zero => rfl
  | succ n ih => simpa [retrieveBytesCached, keyHashable] using ih

/-- C8 (counterexample): an `apply()` call that produces no `DeltaSpace` at
all (no rule matches) still decrements the lifespan: a rule with lifespan 3
comes back with lifespan 2 — `self.lifespan -= 1` runs unconditionally. -/
theorem C8_counterexample :
    (applyRule lifespan3Rule [] []).modified_spaces = [] ∧
    (applyRule lifespan3Rule [] []).rule.lifespan = some 2 := by decide

/-- `apply` appends exactly one `DeltaSpace` per `RuleMatch`. -/
theorem applyMatches_length (r : RuleM) (ms : List RuleMatch) (h : CellHeap) :
    ((applyMatches r ms h).1).length = ms.length := by
  induction ms generalizing h with
  | nil => rfl
  | cons rm rest ih => simp [applyMatches, ih]

/-- C8 (amended): every `apply()` call decrements a finite lifespan by
exactly one, whether or not it produced anything; one `DeltaSpace` record is
appended per `RuleMatch`; and the rule becomes disabled exactly when the
decremented lifespan equals zero and the call had at least one `RuleMatch`
(or it was already disabled). -/
theorem C8_lifespan_amended (r : RuleM) (rule_matches : List RuleMatch) (h : CellHeap) :
    (applyRule r rule_matches h).rule.lifespan = r.lifespan.map (· - 1) ∧
    (applyRule r rule_matches h).modified_spaces.length = rule_matches.length ∧
    ((applyRule r rule_matches h).rule.disabled = true ↔
      (r.lifespan.map (· - 1) = some 0 ∧ rule_matches ≠ []) ∨ r.disabled = true) := by
  refine ⟨rfl, applyMatches_length r rule_matches h, ?_⟩
  have hlen := applyMatches_length r rule_matches h
  have hemp : ((applyMatches r rule_matches h).1).isEmpty = rule_matches.isEmpty := by
    rcases hL : (applyMatches r rule_matches h).1 with _ | _ <;>
      rcases hR : rule_matches with _ | _ <;> simp_all
  show (if _ ∧ ¬((applyMatches r rule_matches h).1).isEmpty = true then true
        else r.disabled) = true ↔ _
  have hcond : (r.lifespan.map (· - 1) = some 0 ∧
      ¬((applyMatches r rule_matches h).1).isEmpty = true) ↔
      (r.lifespan.map (· - 1) = some 0 ∧ rule_matches ≠ []) := by
    rw [hemp]; simp [List.isEmpty_iff]
  split_ifs with hc
  · simp [hcond.mp hc]
  · have hnc := (not_iff_not.mpr hcond).mp hc
    simp only [false_iff, iff_def, or_iff_right_iff_imp]
    refine ⟨fun hd => Or.inr hd, fun hd => ?_⟩
    rcases hd with hd | hd
    · exact absurd hd hnc
    · exact hd

/-- C3 (amended): when `parallel_execution_limit > 1`, a span whose index is
in the conflict set is governed by the conflict policy: `skip` leaves the
loop state untouched and moves on, `break` stops processing the remaining
spans of the match, and `branch`/`branch_nbl` (for `branch`, only while the
branch budget `bl ≤ branch_limit` is not exceeded) applies the edit to a
fresh copy of the `branch_origin` space only — the working space is untouched
— and appends it, with its delta, as a separate submitted output of the
match. -/
theorem C3_conflict_resolution_amended (r : RuleM) (prev : SpaceState1D)
    (conflicts : Finset Nat) (mb idx : Nat) (sel : Int × Int)
    (rest : List (Nat × (Int × Int))) (st : ApplySt) (h : CellHeap)
    (hpl : r.parallel_execution_limit > 1) (hconf : idx ∈ conflicts) :
    (r.crp = "skip" →
      applyLoop r prev conflicts mb ((idx, sel) :: rest) st h =
        applyLoop r prev conflicts mb rest st h) ∧
    (r.crp = "break" →
      applyLoop r prev conflicts mb ((idx, sel) :: rest) st h = (st, h)) ∧
    ((r.crp = "branch" ∧ st.bl ≤ r.branch_limit) ∨ r.crp = "branch_nbl" →
      applyLoop r prev conflicts mb ((idx, sel) :: rest) st h =
        (let base := if r.branch_origin = "prev" then prev else st.current_space
         let res := call_space_modifier r.kind base sel (targetFor r idx) h
         applyLoop r prev conflicts mb rest
           { st with
             submitted_spaces :=
               st.submitted_spaces ++ [if r.no_delta_submit then none else some res.1],
             submitted_cell_deltas :=
               st.submitted_cell_deltas ++
                 [if r.no_causality_tracking then ⟨[], []⟩ else res.2.1] }
           res.2.2)) := by
  refine ⟨fun hcrp => ?_, fun hcrp => ?_, fun hcrp => ?_⟩
  · rw [applyLoop, if_pos ⟨hpl, by rw [hcrp]; decide, hconf⟩,
      if_neg (by rw [hcrp]; decide), if_pos hcrp]
  · rw [applyLoop, if_pos ⟨hpl, by rw [hcrp]; decide, hconf⟩,
      if_neg (by rw [hcrp]; decide), if_neg (by rw [hcrp]; decide), if_pos hcrp]
  · rcases hcrp with ⟨hcrp, hbl⟩ | hcrp
    · rw [applyLoop, if_pos ⟨hpl, by rw [hcrp]; decide, hconf⟩,
        if_pos (Or.inl hcrp), if_neg (by omega)]
    · rw [applyLoop, if_pos ⟨hpl, by rw [hcrp]; decide, hconf⟩,
        if_pos (Or.inr hcrp), if_neg (by rw [hcrp]; simp)]

/-- Witness for `C3_conflict_resolution_amended`: a `skip` rule with
`parallel_execution_limit = 2` leaves a conflicted span unprocessed. -/
theorem C3_conflict_resolution_amended_witness :
    applyLoop skipRulePL2 ⟨cellsABCDE⟩ {0} 0 [(0, (0, 1))] abcdeSt [] =
      applyLoop skipRulePL2 ⟨cellsABCDE⟩ {0} 0 [] abcdeSt [] :=
  (C3_conflict_resolution_amended skipRulePL2 ⟨cellsABCDE⟩ {0} 0 0 (0, 1) []
      abcdeSt [] (by decide) (by decide)).1 rfl

/-- `map` commutes with `insertIdx`. -/
theorem map_insertIdx {α β : Type} (f : α → β) :
    ∀ (n : Nat) (l : List α) (x : α),
      (l.insertIdx n x).map f = (l.map f).insertIdx n (f x)
  | 0, _, _ => rfl
  | _ + 1, [], _ => rfl
  | n + 1, a :: l, x => by
      simp [List.insertIdx_succ_cons, map_insertIdx f n l x]

/-- `map` commutes with `eraseIdx`. -/
theorem map_eraseIdx {α β : Type} (f : α → β) :
    ∀ (l : List α) (n : Nat), (l.eraseIdx n).map f = (l.map f).eraseIdx n
  | [], _ => rfl
  | _ :: _, 0 => rfl
  | a :: l, n + 1 => by simp [List.eraseIdx, map_eraseIdx f l n]

/-- `map` commutes with a Python point assignment. -/
theorem map_pyPointSet {α β : Type} (f : α → β) (l : List α) (i : Int) (x : α) :
    (pyPointSet l i x).map f = pyPointSet (l.map f) i (f x) := by
  unfold pyPointSet
  simp only [List.length_map]
  split <;> simp

/-- `map` commutes with a Python point deletion. -/
theorem map_pyPointDel {α β : Type} (f : α → β) (l : List α) (i : Int) :
    (pyPointDel l i).map f = pyPointDel (l.map f) i := by
  unfold pyPointDel
  simp only [List.length_map]
  split <;> simp [map_eraseIdx]

/-- `map` commutes with a Python slice assignment. -/
theorem map_pySliceSet {α β : Type} (f : α → β) (l : List α) (a b : Int) (v : List α) :
    (pySliceSet l a b v).map f = pySliceSet (l.map f) a b (v.map f) := by
  unfold pySliceSet pySliceBounds
  simp

/-- `map` commutes with a Python slice read. -/
theorem map_pySliceGet {α β : Type} (f : α → β) (l : List α) (a b : Int) :
    (pySliceGet l a b).map f = pySliceGet (l.map f) a b := by
  unfold pySliceGet pySliceBounds
  simp

/-- `map` commutes with `pyInsert`. -/
theorem map_pyInsert {α β : Type} (f : α → β) (l : List α) (i : Int) (x : α) :
    (pyInsert l i x).map f = pyInsert (l.map f) i (f x) := by
  unfold pyInsert
  simp [map_insertIdx]

/-- The evolver point-update loop of `TrieVec` skips past a head cell when
started at a positive index. -/
theorem overwriteFrom_cons_succ {α : Type} (x : α) (l : List α) (s : Nat)
    (cs : List α) : overwriteFrom (x :: l) (s + 1) cs = x :: overwriteFrom l s cs := by
  induction cs generalizing l s with
  | nil => rfl
  | cons c rest ih => rw [overwriteFrom, List.set_cons_succ, ih, overwriteFrom]

/-- The evolver point-update loop of `TrieVec` equals a splice when the
updates stay in range. -/
theorem overwriteFrom_eq_splice {α : Type} :
    ∀ (l : List α) (s : Nat) (cs : List α), s + cs.length ≤ l.length →
      overwriteFrom l s cs = l.take s ++ cs ++ l.drop (s + cs.length)
  | l, s, [], _ => by simp [overwriteFrom]
  | [], s, c :: rest, h => by simp at h
  | y :: l1, 0, c :: rest, h => by
      rw [overwriteFrom,
        show (y :: l1).set 0 c = c :: l1 from rfl,
        overwriteFrom_cons_succ c l1 0 rest,
        overwriteFrom_eq_splice l1 0 rest (by simp at h ⊢; omega)]
      simp
  | y :: l1, s + 1, c :: rest, h => by
      rw [overwriteFrom_cons_succ y l1 s (c :: rest),
        overwriteFrom_eq_splice l1 s (c :: rest) (by simp at h ⊢; omega)]
      show y :: (l1.take s ++ c :: rest ++ l1.drop (s + (rest.length + 1))) =
        (y :: l1).take (s + 1) ++ c :: rest ++ (y :: l1).drop (s + 1 + (rest.length + 1))
      rw [List.take_succ_cons,
        show s + 1 + (rest.length + 1) = (s + (rest.length + 1)) + 1 by omega,
        List.drop_succ_cons]
      rfl

/-- `pyClamp` stays below the length. -/
theorem pyClamp_le (i : Int) (n : Nat) : pyClamp i n ≤ n := by
  unfold pyClamp; omega

/-- Vec preserves the store invariant on every public mutation. -/
theorem vecApply_consistent (m : MutOp) (v : VecFlat) (hv : bufferConsistent v) :
    bufferConsistent (vecApply m v) := by
  have hb : v.search_buffer = v.vec.map ordQ := hv
  cases m with
  | setPoint i c =>
      show bufferConsistent (vecSetPoint v i c)
      unfold vecSetPoint
      split
      · show pyPointSet v.search_buffer i (ordQ c) = (pyPointSet v.vec i c).map ordQ
        rw [map_pyPointSet, hb]
      · exact hv
  | setRange a b cs =>
      show pySliceSet v.search_buffer a b (retrieveBytesUncached cs) =
        (pySliceSet v.vec a b cs).map ordQ
      rw [map_pySliceSet, hb]; rfl
  | insertAt i c =>
      show pyInsert v.search_buffer i (ordQ c) = (pyInsert v.vec i c).map ordQ
      rw [map_pyInsert, hb]
  | delPoint i =>
      show bufferConsistent (vecDelPoint v i)
      unfold vecDelPoint
      split
      · show pyPointDel v.search_buffer i = (pyPointDel v.vec i).map ordQ
        rw [map_pyPointDel, hb]
      · exact hv
  | delRange a b =>
      show pySliceSet v.search_buffer a b [] = (pySliceSet v.vec a b []).map ordQ
      rw [map_pySliceSet, hb]; rfl
  | appendC c =>
      show v.search_buffer ++ [ordQ c] = (v.vec ++ [c]).map ordQ
      rw [hb]; simp
  | extendC cs =>
      show v.search_buffer ++ retrieveBytesUncached cs = (v.vec ++ cs).map ordQ
      rw [hb]; simp [retrieveBytesUncached]

/-- TrieVec's slice assignment preserves the store invariant whenever the
resolved bounds are not reversed (`start ≤ stop`). -/
theorem trieSetRange_consistent (v : VecFlat) (a b : Int) (cs : List Cell)
    (hv : bufferConsistent v)
    (hse : (pySliceBounds a b v.vec.length).1 ≤ (pySliceBounds a b v.vec.length).2) :
    bufferConsistent (trieSetRange v a b cs) := by
  have hb : v.search_buffer = v.vec.map ordQ := hv
  rcases hbd : pySliceBounds a b v.vec.length with ⟨s, e⟩
  have hse' : s ≤ e := by rw [hbd] at hse; exact hse
  have hen : e ≤ v.vec.length := by
    have h2 := congrArg Prod.snd hbd
    unfold pySliceBounds at h2
    simp only at h2
    rw [← h2]
    exact pyClamp_le _ _
  have hbuf : pySliceSet v.search_buffer a b (retrieveBytesUncached cs) =
      (v.vec.take s ++ cs ++ v.vec.drop e).map ordQ := by
    rw [hb]
    show pySliceSet (v.vec.map ordQ) a b (cs.map ordQ) = _
    unfold pySliceSet
    rw [show (v.vec.map ordQ).length = v.vec.length from by simp, hbd]
    show (v.vec.map ordQ).take s ++ cs.map ordQ ++ (v.vec.map ordQ).drop (max s e) = _
    rw [max_eq_right hse']
    simp
  unfold bufferConsistent trieSetRange
  rw [hbd]
  show pySliceSet v.search_buffer a b (retrieveBytesUncached cs) =
    (if (cs.length : Int) = (e : Int) - (s : Int) then overwriteFrom v.vec s cs
     else v.vec.take s ++ cs ++ v.vec.drop e).map ordQ
  split
  · rename_i hc
    have hcl : s + cs.length = e := by omega
    rw [overwriteFrom_eq_splice v.vec s cs (by omega), hcl, hbuf]
  · rw [hbuf]

/-- TrieVec preserves the store invariant on every public mutation whose
resolved slice bounds are not reversed. -/
theorem trieApply_consistent (m : MutOp) (v : VecFlat) (hv : bufferConsistent v)
    (hm : trieBoundsOk m v.vec.length) :
    bufferConsistent (trieApply m v) := by
  have hb : v.search_buffer = v.vec.map ordQ := hv
  cases m with
  | setPoint i c =>
      show bufferConsistent (trieSetPoint v i c)
      unfold trieSetPoint
      split
      · show pyPointSet v.search_buffer i (ordQ c) = (pyPointSet v.vec i c).map ordQ
        rw [map_pyPointSet, hb]
      · exact hv
  | setRange a b cs => exact trieSetRange_consistent v a b cs hv hm
  | insertAt i c =>
      refine trieSetRange_consistent v i i [c] hv ?_
      exact le_refl _
  | delPoint i => exact trieSetRange_consistent v i (i + 1) [] hv hm
  | delRange a b => exact trieSetRange_consistent v a b [] hv hm
  | appendC c =>
      show v.search_buffer ++ [ordQ c] = (v.vec ++ [c]).map ordQ
      rw [hb]; simp
  | extendC cs =>
      show v.search_buffer ++ retrieveBytesUncached cs = (v.vec ++ cs).map ordQ
      rw [hb]; simp [retrieveBytesUncached]

/-- C5 (evaluation at the failing input, plus the invariant where it does
hold): `TrieVec`'s slice assignment with reversed resolved bounds
(`v[3:1] = (Cell('X'),)` on `"ABCDE"`) breaks `len(buffer) == len(cells)` —
the pvector rebuild `vec[:start] + value + vec[stop:]` duplicates the cells
between `stop` and `start` while the `bytearray` does a pure insertion.  For
every mutation `Vec` preserves the invariant, and `TrieVec` preserves it
whenever the resolved bounds are not reversed (all engine-generated
mutations). -/
theorem C5_store_invariant (m : MutOp) (v : VecFlat) (hv : bufferConsistent v)
    (hm : trieBoundsOk m v.vec.length) :
    ¬ bufferConsistent
        (trieApply (.setRange 3 1 [⟨'X', 9⟩]) ⟨cellsABCDE, cellsABCDE.map ordQ⟩) ∧
    bufferConsistent (vecApply m v) ∧
    bufferConsistent (trieApply m v) :=
  ⟨by decide, vecApply_consistent m v hv, trieApply_consistent m v hv hm⟩

/-- Witness for `C5_store_invariant` at the mutation `append(Cell('C'))` on
the consistent store `"AB"`. -/
theorem C5_store_invariant_witness :
    bufferConsistent vecAB ∧
    (¬ bufferConsistent
        (trieApply (.setRange 3 1 [⟨'X', 9⟩]) ⟨cellsABCDE, cellsABCDE.map ordQ⟩) ∧
     bufferConsistent (vecApply (.appendC ⟨'C', 2⟩) vecAB) ∧
     bufferConsistent (trieApply (.appendC ⟨'C', 2⟩) vecAB)) :=
  ⟨by decide, C5_store_invariant (.appendC ⟨'C', 2⟩) vecAB (by decide) trivial⟩

/-- `deepcopy` preserves the quanta sequence. -/
theorem deepcopyCells_quanta (cs : List Cell) (h : CellHeap) :
    ((deepcopyCells cs h).1).map Cell.quanta = cs.map Cell.quanta := by
  induction cs generalizing h with
  | nil => rfl
  | cons c rest ih => simp [deepcopyCells, deepcopyCell, ih]

/-- Resolved slice bounds of in-range nonnegative endpoints. -/
theorem pySliceBounds_coe (s e n : Nat) (hs : s ≤ n) (he : e ≤ n) :
    pySliceBounds (s : Int) (e : Int) n = (s, e) := by
  unfold pySliceBounds pyClamp pyResolve
  rw [if_neg (by omega : ¬ (s : Int) < 0), if_neg (by omega : ¬ (e : Int) < 0)]
  refine Prod.ext ?_ ?_
  · show min n (max 0 (s : Int)).toNat = s
    omega
  · show min n (max 0 (e : Int)).toNat = e
    omega

/-- Python slice read at in-range nonnegative endpoints. -/
theorem pySliceGet_coe {α : Type} (l : List α) (s e : Nat)
    (hs : s ≤ l.length) (he : e ≤ l.length) :
    pySliceGet l (s : Int) (e : Int) = (l.take e).drop s := by
  unfold pySliceGet
  rw [pySliceBounds_coe s e l.length hs he]

/-- Python slice assignment at in-range nonnegative endpoints. -/
theorem pySliceSet_coe {α : Type} (l : List α) (s e : Nat) (v : List α)
    (hs : s ≤ l.length) (he : e ≤ l.length) :
    pySliceSet l (s : Int) (e : Int) v = l.take s ++ v ++ l.drop (max s e) := by
  unfold pySliceSet
  rw [pySliceBounds_coe s e l.length hs he]

/-- C9: substituting `new` over an in-bounds range `[s, e)` and then
substituting the destroyed contents back over the span `[s, s + len(new))`
now occupied by `new` restores the original quanta at every position (the
metadata of the restored cells is deep-copied and may differ). -/
theorem C9_substitute_roundtrip (cells new : List Cell) (s e : Nat) (h : CellHeap)
    (hs : s ≤ e) (he : e ≤ cells.length) :
    (substitute
       (substitute ⟨cells⟩ ((s : Int), (e : Int)) new h).1
       ((s : Int), ((s + new.length : Nat) : Int))
       (substitute ⟨cells⟩ ((s : Int), (e : Int)) new h).2.1.destroyed_cells
       (substitute ⟨cells⟩ ((s : Int), (e : Int)) new h).2.2).1.cells.map Cell.quanta
      = cells.map Cell.quanta := by
  have hsn : s ≤ cells.length := le_trans hs he
  have hc1 : (substitute ⟨cells⟩ ((s : Int), (e : Int)) new h).1.cells =
      cells.take s ++ new ++ cells.drop e := by
    show pySliceSet cells (s : Int) (e : Int) new = _
    rw [pySliceSet_coe cells s e new hsn he, max_eq_right hs]
  have hd1 : (substitute ⟨cells⟩ ((s : Int), (e : Int)) new h).2.1.destroyed_cells.map
      Cell.quanta = ((cells.take e).drop s).map Cell.quanta := by
    show ((deepcopyCells (pySliceGet cells (s : Int) (e : Int)) h).1).map Cell.quanta = _
    rw [deepcopyCells_quanta, pySliceGet_coe cells s e hsn he]
  have hlen1 : (cells.take s ++ new ++ cells.drop e).length =
      s + new.length + (cells.length - e) := by
    simp
    omega
  have hc2 : (substitute
       (substitute ⟨cells⟩ ((s : Int), (e : Int)) new h).1
       ((s : Int), ((s + new.length : Nat) : Int))
       (substitute ⟨cells⟩ ((s : Int), (e : Int)) new h).2.1.destroyed_cells
       (substitute ⟨cells⟩ ((s : Int), (e : Int)) new h).2.2).1.cells =
      (cells.take s ++ new ++ cells.drop e).take s ++
        (substitute ⟨cells⟩ ((s : Int), (e : Int)) new h).2.1.destroyed_cells ++
        (cells.take s ++ new ++ cells.drop e).drop (s + new.length) := by
    show pySliceSet (substitute ⟨cells⟩ ((s : Int), (e : Int)) new h).1.cells
        (s : Int) ((s + new.length : Nat) : Int) _ = _
    rw [hc1, pySliceSet_coe _ s (s + new.length) _
        (by rw [hlen1]; omega) (by rw [hlen1]; omega),
      max_eq_right (by omega : s ≤ s + new.length)]
  rw [hc2]
  have hts : (cells.take s).length = s := by simp; omega
  have htk : (cells.take s ++ new ++ cells.drop e).take s = cells.take s := by
    rw [List.append_assoc, List.take_append_eq_append_take,
      List.take_of_length_le (by rw [hts]),
      show s - (cells.take s).length = 0 by omega]
    simp
  have hdk : (cells.take s ++ new ++ cells.drop e).drop (s + new.length) =
      cells.drop e := by
    rw [List.append_assoc, List.drop_append_eq_append_drop,
      List.drop_of_length_le (by rw [hts]; omega),
      show s + new.length - (cells.take s).length = new.length by omega]
    rw [List.drop_append_eq_append_drop,
      List.drop_of_length_le (le_refl new.length), Nat.sub_self]
    simp
  rw [htk, hdk]
  simp only [List.map_append, hd1]
  simp only [List.map_take, List.map_drop]
  have hfinal : ∀ (L : List Char), s ≤ e → e ≤ L.length →
      L.take s ++ (L.take e).drop s ++ L.drop e = L := by
    intro L h1 h2
    have : L.take s = (L.take e).take s := by
      rw [List.take_take, min_eq_left h1]
    rw [this, List.take_append_drop, List.take_append_drop]
  exact hfinal (cells.map Cell.quanta) hs (by simp; omega)

/-- Witness for `C9_substitute_roundtrip`: replace `"BC"` of `"ABCDE"` by
`"XY Z"` and substitute the destroyed cells back. -/
theorem C9_substitute_roundtrip_witness :
    (1 : Nat) ≤ 3 ∧ (3 : Nat) ≤ cellsABCDE.length ∧
    (substitute
       (substitute ⟨cellsABCDE⟩ (((1 : Nat) : Int), ((3 : Nat) : Int)) xyzCells []).1
       (((1 : Nat) : Int), ((1 + xyzCells.length : Nat) : Int))
       (substitute ⟨cellsABCDE⟩ (((1 : Nat) : Int), ((3 : Nat) : Int))
         xyzCells []).2.1.destroyed_cells
       (substitute ⟨cellsABCDE⟩ (((1 : Nat) : Int), ((3 : Nat) : Int))
         xyzCells []).2.2).1.cells.map Cell.quanta
      = cellsABCDE.map Cell.quanta :=
  ⟨by decide, by decide,
    C9_substitute_roundtrip cellsABCDE xyzCells 1 3 [] (by decide) (by decide)⟩

/-- Writing one buffer of the heap leaves every other buffer unchanged. -/
theorem getD_set_ne (h : BufHeap) (i j : Nat) (v : List Nat) (hne : i ≠ j) :
    (h.set i v).getD j [] = h.getD j [] := by
  rw [List.getD_eq_getElem?_getD, List.getD_eq_getElem?_getD, List.getElem?_set_ne hne]

/-- A mutation through one store leaves the buffer of every store holding a
different `bytearray` unchanged. -/
theorem bufOf_applyMutH_ne (m : MutOp) (s t : VecH) (h : BufHeap)
    (hne : s.bufId ≠ t.bufId) : bufOf t (applyMutH m s h).2 = bufOf t h := by
  unfold applyMutH bufOf
  exact getD_set_ne _ _ _ _ hne

/-- C1 (amended): after `B1 = S.branch()` and `B2 = S.branch()`, any public
mutation of `B1` leaves `B2`'s cells, `B2`'s search buffer, `B2`'s pattern
searches and `S`'s cells unchanged — only `S`'s search buffer (shared with
the first branch `B1`) can be affected. -/
theorem C1_branch_independence_amended (S : VecH) (h : BufHeap) (m : MutOp)
    (hb : S.bufId < h.length)
    (S1 B1 : VecH) (h1 : BufHeap) (hb1 : branchV S h = (S1, B1, h1))
    (S2 B2 : VecH) (h2 : BufHeap) (hb2 : branchV S1 h1 = (S2, B2, h2))
    (B1m : VecH) (h3 : BufHeap) (hm : applyMutH m B1 h2 = (B1m, h3)) :
    B2.cells = S.cells ∧ bufOf B2 h3 = bufOf B2 h2 ∧
    (∀ pat : List Nat, searchSpans pat B2 h3 = searchSpans pat B2 h2) ∧
    S2.cells = S.cells := by
  have hm2 : (applyMutH m B1 h2).2 = h3 := by rw [hm]
  by_cases hbz : S.branchZero = true
  · unfold branchV at hb1
    rw [if_pos hbz] at hb1
    cases hb1
    unfold branchV at hb2
    rw [if_neg (by simp)] at hb2
    cases hb2
    have hne : ({ cells := S.cells, bufId := S.bufId, branchZero := true } : VecH).bufId ≠
        ({ cells := { S with branchZero := false }.cells, bufId := h.length,
           branchZero := true } : VecH).bufId := by
      dsimp only
      omega
    refine ⟨rfl, ?_, ?_, rfl⟩
    · rw [← hm2]
      exact bufOf_applyMutH_ne m _ _ _ hne
    · intro pat
      unfold searchSpans
      rw [← hm2]
      exact congrArg (byteFind pat) (bufOf_applyMutH_ne m _ _ _ hne)
  · unfold branchV at hb1
    rw [if_neg hbz] at hb1
    cases hb1
    unfold branchV at hb2
    rw [if_neg (by simp)] at hb2
    cases hb2
    have hne : ({ cells := S.cells, bufId := h.length, branchZero := true } : VecH).bufId ≠
        ({ cells := { S with branchZero := false }.cells,
           bufId := (h ++ [bufOf S h]).length, branchZero := true } : VecH).bufId := by
      dsimp only
      simp
    refine ⟨rfl, ?_, ?_, rfl⟩
    · rw [← hm2]
      exact bufOf_applyMutH_ne m _ _ _ hne
    · intro pat
      unfold searchSpans
      rw [← hm2]
      exact congrArg (byteFind pat) (bufOf_applyMutH_ne m _ _ _ hne)

/-- Witness for `C1_branch_independence_amended` at the one-cell store
`"A"`, its two branches, and the point mutation `B1[0] = Cell('B')`. -/
theorem C1_branch_independence_amended_witness :
    branch2.2.1.cells = storeA.cells ∧
    bufOf branch2.2.1 branch1Mutated.2 = bufOf branch2.2.1 branch2.2.2 ∧
    searchSpans [66] branch2.2.1 branch1Mutated.2 =
      searchSpans [66] branch2.2.1 branch2.2.2 ∧
    branch2.1.cells = storeA.cells :=
  have h := C1_branch_independence_amended storeA heapA (.setPoint 0 ⟨'B', 0⟩) (by decide)
    branch1.1 branch1.2.1 branch1.2.2 rfl
    branch2.1 branch2.2.1 branch2.2.2 rfl
    branch1Mutated.1 branch1Mutated.2 rfl
  ⟨h.1, h.2.1, h.2.2.1 [66], h.2.2.2⟩

/-- The two slice assignments at the heart of `swap` exchange the contents of
ordered disjoint in-bounds ranges. -/
theorem swap_exchange_core (cells : List Cell) (a1 b1 a2 b2 : Nat)
    (h1 : a1 ≤ b1) (h2 : b1 ≤ a2) (h3 : a2 ≤ b2) (h4 : b2 ≤ cells.length) :
    pySliceSet (pySliceSet cells ((a2 : Int)) ((b2 : Int))
        (pySliceGet cells ((a1 : Int)) ((b1 : Int))))
      ((a1 : Int)) ((b1 : Int)) (pySliceGet cells ((a2 : Int)) ((b2 : Int))) =
    cells.take a1 ++ (cells.take b2).drop a2 ++ (cells.take a2).drop b1 ++
      (cells.take b1).drop a1 ++ cells.drop b2 := by
  have ha1n : a1 ≤ cells.length := by omega
  have hb1n : b1 ≤ cells.length := by omega
  have ha2n : a2 ≤ cells.length := by omega
  rw [pySliceGet_coe cells a1 b1 ha1n hb1n, pySliceGet_coe cells a2 b2 ha2n h4,
    pySliceSet_coe cells a2 b2 _ ha2n h4, max_eq_right h3]
  have hlt1 : ((cells.take b1).drop a1).length = b1 - a1 := by simp; omega
  have hlc1 : (cells.take a2 ++ (cells.take b1).drop a1 ++ cells.drop b2).length =
      a2 + (b1 - a1) + (cells.length - b2) := by simp; omega
  rw [pySliceSet_coe _ a1 b1 _ (by rw [hlc1]; omega) (by rw [hlc1]; omega),
    max_eq_right h1]
  have hta2 : (cells.take a2).length = a2 := by simp; omega
  have htk : (cells.take a2 ++ (cells.take b1).drop a1 ++ cells.drop b2).take a1 =
      cells.take a1 := by
    rw [List.append_assoc, List.take_append_eq_append_take,
      show a1 - (cells.take a2).length = 0 by omega,
      List.take_take, min_eq_left (by omega : a1 ≤ a2)]
    simp
  have hdk : (cells.take a2 ++ (cells.take b1).drop a1 ++ cells.drop b2).drop b1 =
      (cells.take a2).drop b1 ++ ((cells.take b1).drop a1 ++ cells.drop b2) := by
    rw [List.append_assoc, List.drop_append_eq_append_drop,
      show b1 - (cells.take a2).length = 0 by omega]
    simp
  rw [htk, hdk]
  simp [List.append_assoc]

/-- C6 (amended): `swap` raises exactly when the source's chained
strict-inequality check fires on the resolved endpoints (which misses
identical ranges), and for ordered disjoint in-bounds ranges — in either
argument order — it exchanges the two ranges' contents and returns an empty
delta. -/
theorem C6_swap_amended (cells : List Cell) (s1 e1 s2 e2 : Nat)
    (h12 : s1 ≤ e1) (h23 : e1 ≤ s2) (h34 : s2 ≤ e2) (h4 : e2 ≤ cells.length) :
    (∀ q1 q2 : Int × Int,
      isError (swap ⟨cells⟩ q1 q2) = true ↔
        overlapTest (swapResolve q1 cells.length) (swapResolve q2 cells.length) = true) ∧
    swap ⟨cells⟩ ((s1 : Int), (e1 : Int)) ((s2 : Int), (e2 : Int)) =
      .ok (⟨cells.take s1 ++ (cells.take e2).drop s2 ++ (cells.take s2).drop e1 ++
            (cells.take e1).drop s1 ++ cells.drop e2⟩, ⟨[], []⟩) ∧
    swap ⟨cells⟩ ((s2 : Int), (e2 : Int)) ((s1 : Int), (e1 : Int)) =
      .ok (⟨cells.take s1 ++ (cells.take e2).drop s2 ++ (cells.take s2).drop e1 ++
            (cells.take e1).drop s1 ++ cells.drop e2⟩, ⟨[], []⟩) := by
  have hres : ∀ a b : Nat, swapResolve ((a : Int), (b : Int)) cells.length =
      ((a : Int), (b : Int)) := by
    intro a b
    unfold swapResolve
    rw [if_neg (by omega : ¬ (a : Int) < 0), if_neg (by omega : ¬ (b : Int) < 0)]
  refine ⟨?_, ?_, ?_⟩
  · intro q1 q2
    unfold swap
    dsimp only
    cases hov : overlapTest (swapResolve q1 cells.length) (swapResolve q2 cells.length) with
    | true => simp [isError]
    | false => simp [isError]
  · unfold swap
    dsimp only
    rw [hres s1 e1, hres s2 e2]
    rw [if_neg (by unfold overlapTest; simp; omega)]
    rw [if_neg (by simp; omega)]
    dsimp only
    rw [swap_exchange_core cells s1 e1 s2 e2 h12 h23 h34 h4]
  · unfold swap
    dsimp only
    rw [hres s1 e1, hres s2 e2]
    rw [if_neg (by unfold overlapTest; simp; omega)]
    by_cases hlt : s1 < s2
    · rw [if_pos (by simpa using hlt)]
      dsimp only
      rw [swap_exchange_core cells s1 e1 s2 e2 h12 h23 h34 h4]
    · have he1 : e1 = s1 := by omega
      have hs2 : s2 = s1 := by omega
      simp only [he1, hs2]
      rw [if_neg (by simp)]
      dsimp only
      have hts1 : (cells.take s1).length = s1 := by simp; omega
      have hte2 : ((cells.take e2).drop s1).length = e2 - s1 := by simp; omega
      have hc1 : pySliceSet cells ((s1 : Int)) ((s1 : Int))
          (pySliceGet cells ((s1 : Int)) ((e2 : Int))) =
          cells.take s1 ++ (cells.take e2).drop s1 ++ cells.drop s1 := by
        rw [pySliceGet_coe cells s1 e2 (by omega) h4,
          pySliceSet_coe cells s1 s1 _ (by omega) (by omega), max_self]
      have hlc1 : (cells.take s1 ++ (cells.take e2).drop s1 ++ cells.drop s1).length =
          s1 + (e2 - s1) + (cells.length - s1) := by simp; omega
      rw [hc1, pySliceSet_coe _ s1 e2 _ (by rw [hlc1]; omega) (by rw [hlc1]; omega),
        max_eq_right (by omega : s1 ≤ e2)]
      have htk : (cells.take s1 ++ (cells.take e2).drop s1 ++ cells.drop s1).take s1 =
          cells.take s1 := by
        rw [List.append_assoc, List.take_append_eq_append_take,
          show s1 - (cells.take s1).length = 0 from by rw [hts1]; omega,
          List.take_take, min_self]
        simp
      have hdk : (cells.take s1 ++ (cells.take e2).drop s1 ++ cells.drop s1).drop e2 =
          cells.drop s1 := by
        rw [List.append_assoc, List.drop_append_eq_append_drop,
          List.drop_of_length_le (by rw [hts1]; omega),
          List.drop_append_eq_append_drop,
          List.drop_of_length_le (by rw [hte2]; omega),
          show e2 - (cells.take s1).length - ((cells.take e2).drop s1).length = 0 from by
            rw [hts1, hte2]; omega]
        simp
      rw [htk, hdk]
      have hgl : pySliceGet cells ((s1 : Int)) ((s1 : Int)) = [] := by
        rw [pySliceGet_coe cells s1 s1 (by omega) (by omega)]
        simp
      rw [hgl]
      have hnil : (cells.take s1).drop s1 = [] :=
        List.drop_of_length_le (by rw [hts1])
      have hLHS : cells.take s1 ++ ([] : List Cell) ++ cells.drop s1 = cells := by
        simp only [List.append_nil]
        exact List.take_append_drop s1 cells
      have hRHS : cells.take s1 ++ (cells.take e2).drop s1 ++ (cells.take s1).drop s1 ++
          (cells.take s1).drop s1 ++ cells.drop e2 = cells := by
        rw [hnil]
        simp only [List.append_nil]
        rw [show cells.take s1 = (cells.take e2).take s1 from by
          rw [List.take_take, min_eq_left (by omega : s1 ≤ e2)]]
        rw [List.take_append_drop, List.take_append_drop]
      rw [hLHS, hRHS]

/-- Witness for `C6_swap_amended`: exchange `[0,1)` and `[2,4)` of
`"ABCDE"`. -/
theorem C6_swap_amended_witness :
    (0 : Nat) ≤ 1 ∧ (1 : Nat) ≤ 2 ∧ (2 : Nat) ≤ 4 ∧ (4 : Nat) ≤ cellsABCDE.length ∧
    swap ⟨cellsABCDE⟩ (((0 : Nat) : Int), ((1 : Nat) : Int))
        (((2 : Nat) : Int), ((4 : Nat) : Int)) =
      .ok (⟨cellsABCDE.take 0 ++ (cellsABCDE.take 4).drop 2 ++
            (cellsABCDE.take 2).drop 1 ++ (cellsABCDE.take 1).drop 0 ++
            cellsABCDE.drop 4⟩, ⟨[], []⟩) :=
  ⟨by decide, by decide, by decide, by decide,
    (C6_swap_amended cellsABCDE 0 1 2 4 (by decide) (by decide) (by decide)
      (by decide)).2.1⟩

/-- `current_event` is the entry at the last index. -/
theorem currentEvent_eq_getD (f : Flow) :
    currentEvent f = f.events.getD (f.events.length - 1) default := by
  unfold currentEvent
  rw [List.getLast?_eq_getElem? f.events, List.getD_eq_getElem?_getD]

/-- Marking the latest event inert does not change the event count. -/
theorem markInert_length (evs : List Event) : (markInert evs).length = evs.length := by
  unfold markInert
  split <;> simp

/-- Marking the latest event inert does not change any event's time. -/
theorem markInert_time (evs : List Event) (i : Nat) :
    ((markInert evs).getD i default).time = (evs.getD i default).time := by
  unfold markInert
  split
  · rfl
  · rename_i e hl
    have hlen : 0 < evs.length := by
      cases evs with
      | nil => cases hl
      | cons a as => simp
    by_cases hieq : i = evs.length - 1
    · subst hieq
      rw [List.getD_eq_getElem?_getD, List.getElem?_set_eq_of_lt _ (by omega)]
      have he : evs[evs.length - 1]? = some e := by
        rw [← List.getLast?_eq_getElem?]
        exact hl
      rw [List.getD_eq_getElem?_getD, he]
      rfl
    · rw [List.getD_eq_getElem?_getD, List.getElem?_set_ne (by omega),
        ← List.getD_eq_getElem?_getD]

/-- One `evolve()` call preserves the event-index invariant. -/
theorem evolve_eventTimesOk (f : Flow) (hf : eventTimesOk f) :
    eventTimesOk (evolve f) := by
  obtain ⟨hne, htime⟩ := hf
  have hlen : 0 < f.events.length := List.length_pos.mpr hne
  have hcur : (currentEvent f).time = ((f.events.length - 1 : Nat) : Int) := by
    rw [currentEvent_eq_getD f]
    exact htime (f.events.length - 1) (by omega)
  rcases hrs : ruleSetApply f.rule_set (currentEvent f).spaces f.heap
    with ⟨applied, rules1, h1⟩
  unfold evolve
  rw [hrs]
  dsimp only
  split
  · refine ⟨?_, fun i hi => ?_⟩
    · intro hc
      have hlc := congrArg List.length hc
      rw [markInert_length] at hlc
      simp only [List.length_nil] at hlc
      omega
    · have hilen : i < f.events.length := by
        rw [markInert_length] at hi
        exact hi
      rw [markInert_time f.events i]
      exact htime i hilen
  · refine ⟨?_, fun i hi => ?_⟩
    · simp
    · have hi2 : i < f.events.length + 1 := by
        simpa using hi
      by_cases hilt : i < f.events.length
      · rw [List.getD_eq_getElem?_getD, List.getElem?_append_left hilt,
          ← List.getD_eq_getElem?_getD]
        exact htime i hilt
      · have hieq : i = f.events.length := by omega
        subst hieq
        rw [List.getD_eq_getElem?_getD, List.getElem?_concat_length]
        show (currentEvent f).time + 1 = ((f.events.length : Nat) : Int)
        rw [hcur]
        omega

/-- `evolve_n` preserves the event-index invariant. -/
theorem evolveN_eventTimesOk (n : Nat) (f : Flow) (hf : eventTimesOk f) :
    eventTimesOk (evolveN f n) := by
  induction n generalizing f with
  | zero => exact hf
  | succ k ih => exact ih (evolve f) (evolve_eventTimesOk f hf)

/-- `evolve_until_inert` preserves the event-index invariant. -/
theorem evolveUntilInert_eventTimesOk (n : Nat) (f : Flow) (hf : eventTimesOk f) :
    eventTimesOk (evolveUntilInert f n) := by
  induction n generalizing f with
  | zero => exact hf
  | succ k ih =>
      unfold evolveUntilInert
      split
      · exact hf
      · exact ih (evolve f) (evolve_eventTimesOk f hf)

/-- C10: for every flow built from an initial event and driven by any
sequence of `evolve()`, `evolve_n()` and `evolve_until_inert()` calls,
`events[i].time == i` holds at every index — the initial event has time 0
and every appended event's time is the previous latest time plus one. -/
theorem C10_event_index_invariant (rules : List RuleM)
    (initial_space : List SpaceState1D) (h : CellHeap) (cmds : List Cmd) :
    ∀ i, i < (runCmds (flowInit rules initial_space h) cmds).events.length →
      ((runCmds (flowInit rules initial_space h) cmds).events.getD i default).time =
        (i : Int) := by
  have hinit : eventTimesOk (flowInit rules initial_space h) := by
    constructor
    · intro hc
      cases hc
    · intro i hi
      have : i = 0 := by
        simp only [flowInit, List.length_cons, List.length_nil] at hi
        omega
      rw [this]
      rfl
  have hrun : ∀ (cs : List Cmd) (f : Flow), eventTimesOk f →
      eventTimesOk (runCmds f cs) := by
    intro cs
    induction cs with
    | nil => intro f hf; exact hf
    | cons c rest ih =>
        intro f hf
        refine ih (runCmd f c) ?_
        cases c with
        | evolveC => exact evolve_eventTimesOk f hf
        | evolveNC n => exact evolveN_eventTimesOk n f hf
        | untilInertC m => exact evolveUntilInert_eventTimesOk m f hf
  exact (hrun cmds _ hinit).2

/-- `foldl` over a `flatMap` is the nested fold. -/
theorem foldl_flatMap {α β γ : Type} (g : α → List β) (f : γ → β → γ)
    (l : List α) (init : γ) :
    (l.flatMap g).foldl f init = l.foldl (fun acc x => (g x).foldl f acc) init := by
  induction l generalizing init with
  | nil => rfl
  | cons x xs ih => simp [List.foldl_append, ih]

/-- The nested stamping loops of `evolve` are the flat fold of `stampOne`
over the flattened delta cells. -/
theorem stampDeltas_eq (applied : List DeltaSpaces) (idx : Int) (h : CellHeap) :
    stampDeltas applied idx h = (deltaCellsOf applied).foldl (stampOne idx) h := by
  unfold stampDeltas deltaCellsOf
  rw [foldl_flatMap]
  congr 1
  funext acc ar
  rw [foldl_flatMap]
  rfl

/-- Writing metadata does not change the heap size. -/
theorem writeMeta_length (c : Cell) (m : Meta) (h : CellHeap) :
    (writeMeta c m h).length = h.length := by
  unfold writeMeta
  simp

/-- Reading back a cell whose record was just written. -/
theorem readMeta_writeMeta_same (c c' : Cell) (m : Meta) (h : CellHeap)
    (heq : c'.ref = c.ref) (hv : c.ref < h.length) :
    readMeta c (writeMeta c' m h) = m := by
  unfold readMeta writeMeta
  rw [heq, List.getD_eq_getElem?_getD, List.getElem?_set_eq_of_lt _ hv]
  rfl

/-- Writing one cell's record leaves every other record unchanged. -/
theorem readMeta_writeMeta_ne (c c' : Cell) (m : Meta) (h : CellHeap)
    (hne : c'.ref ≠ c.ref) :
    readMeta c (writeMeta c' m h) = readMeta c h := by
  unfold readMeta writeMeta
  rw [List.getD_eq_getElem?_getD, List.getElem?_set_ne hne,
    ← List.getD_eq_getElem?_getD]

/-- A write through a dangling reference is a no-op (`list.set` out of
range). -/
theorem writeMeta_oob (c' : Cell) (m : Meta) (h : CellHeap)
    (hv : h.length ≤ c'.ref) : writeMeta c' m h = h := by
  unfold writeMeta
  exact List.set_eq_of_length_le hv

/-- `readMeta` depends only on the reference. -/
theorem readMeta_congr (c c' : Cell) (h : CellHeap) (heq : c'.ref = c.ref) :
    readMeta c' h = readMeta c h := by
  unfold readMeta
  rw [heq]

/-- The `created_at := idx` loop keeps the heap size. -/
theorem cfold_length (idx : Int) (cs : List Cell) (h : CellHeap) :
    (cs.foldl (fun a c => writeMeta c { readMeta c a with created_at := idx } a) h).length
      = h.length := by
  induction cs generalizing h with
  | nil => rfl
  | cons c' rest ih => rw [List.foldl_cons, ih, writeMeta_length]

/-- The `destroyed_at := idx` loop keeps the heap size. -/
theorem dfold_length (idx : Int) (cs : List Cell) (h : CellHeap) :
    (cs.foldl (fun a c => writeMeta c { readMeta c a with destroyed_at := idx } a) h).length
      = h.length := by
  induction cs generalizing h with
  | nil => rfl
  | cons c' rest ih => rw [List.foldl_cons, ih, writeMeta_length]

/-- One `created_at` write never changes any record's `destroyed_at`. -/
theorem cwrite_destroyed_at (idx : Int) (c c' : Cell) (h : CellHeap) :
    (readMeta c (writeMeta c' { readMeta c' h with created_at := idx } h)).destroyed_at
      = (readMeta c h).destroyed_at := by
  by_cases heq : c'.ref = c.ref
  · by_cases hv : c.ref < h.length
    · rw [readMeta_writeMeta_same c c' _ h heq hv, readMeta_congr c c' h heq]
    · rw [writeMeta_oob c' _ h (by omega)]
  · rw [readMeta_writeMeta_ne c c' _ h heq]

/-- One `destroyed_at` write never changes any record's `created_at`. -/
theorem dwrite_created_at (idx : Int) (c c' : Cell) (h : CellHeap) :
    (readMeta c (writeMeta c' { readMeta c' h with destroyed_at := idx } h)).created_at
      = (readMeta c h).created_at := by
  by_cases heq : c'.ref = c.ref
  · by_cases hv : c.ref < h.length
    · rw [readMeta_writeMeta_same c c' _ h heq hv, readMeta_congr c c' h heq]
    · rw [writeMeta_oob c' _ h (by omega)]
  · rw [readMeta_writeMeta_ne c c' _ h heq]

/-- The `created_at` loop never changes any record's `destroyed_at`. -/
theorem cfold_destroyed_at (idx : Int) (cs : List Cell) (h : CellHeap) (c : Cell) :
    (readMeta c (cs.foldl
        (fun a c0 => writeMeta c0 { readMeta c0 a with created_at := idx } a) h)).destroyed_at
      = (readMeta c h).destroyed_at := by
  induction cs generalizing h with
  | nil => rfl
  | cons c' rest ih => rw [List.foldl_cons, ih, cwrite_destroyed_at]

/-- The `destroyed_at` loop never changes any record's `created_at`. -/
theorem dfold_created_at (idx : Int) (cs : List Cell) (h : CellHeap) (c : Cell) :
    (readMeta c (cs.foldl
        (fun a c0 => writeMeta c0 { readMeta c0 a with destroyed_at := idx } a) h)).created_at
      = (readMeta c h).created_at := by
  induction cs generalizing h with
  | nil => rfl
  | cons c' rest ih => rw [List.foldl_cons, ih, dwrite_created_at]

/-- `created_at = idx` is preserved by the `created_at := idx` loop. -/
theorem cfold_created_pres (idx : Int) (cs : List Cell) (h : CellHeap) (c : Cell)
    (hc : (readMeta c h).created_at = idx) :
    (readMeta c (cs.foldl
        (fun a c0 => writeMeta c0 { readMeta c0 a with created_at := idx } a) h)).created_at
      = idx := by
  induction cs generalizing h with
  | nil => exact hc
  | cons c' rest ih =>
      rw [List.foldl_cons]
      refine ih _ ?_
      by_cases heq : c'.ref = c.ref
      · by_cases hv : c.ref < h.length
        · rw [readMeta_writeMeta_same c c' _ h heq hv]
        · rw [writeMeta_oob c' _ h (by omega)]
          exact hc
      · rw [readMeta_writeMeta_ne c c' _ h heq]
        exact hc

/-- `destroyed_at = idx` is preserved by the `destroyed_at := idx` loop. -/
theorem dfold_destroyed_pres (idx : Int) (cs : List Cell) (h : CellHeap) (c : Cell)
    (hc : (readMeta c h).destroyed_at = idx) :
    (readMeta c (cs.foldl
        (fun a c0 => writeMeta c0 { readMeta c0 a with destroyed_at := idx } a) h)).destroyed_at
      = idx := by
  induction cs generalizing h with
  | nil => exact hc
  | cons c' rest ih =>
      rw [List.foldl_cons]
      refine ih _ ?_
      by_cases heq : c'.ref = c.ref
      · by_cases hv : c.ref < h.length
        · rw [readMeta_writeMeta_same c c' _ h heq hv]
        · rw [writeMeta_oob c' _ h (by omega)]
          exact hc
      · rw [readMeta_writeMeta_ne c c' _ h heq]
        exact hc

/-- A cell whose reference occurs in the loop's cell list comes out with
`created_at = idx`. -/
theorem cfold_created_set (idx : Int) (cs : List Cell) (h : CellHeap) (c : Cell)
    (hv : c.ref < h.length) (hmem : ∃ c' ∈ cs, c'.ref = c.ref) :
    (readMeta c (cs.foldl
        (fun a c0 => writeMeta c0 { readMeta c0 a with created_at := idx } a) h)).created_at
      = idx := by
  induction cs generalizing h with
  | nil => obtain ⟨c', hc', _⟩ := hmem; cases hc'
  | cons c' rest ih =>
      rw [List.foldl_cons]
      by_cases heq : c'.ref = c.ref
      · refine cfold_created_pres idx rest _ c ?_
        rw [readMeta_writeMeta_same c c' _ h heq hv]
      · obtain ⟨c2, hc2, heq2⟩ := hmem
        rcases List.mem_cons.mp hc2 with hc2 | hc2
        · rw [hc2] at heq2
          exact absurd heq2 heq
        · refine ih _ (by rw [writeMeta_length]; exact hv) ⟨c2, hc2, heq2⟩

/-- A cell whose reference occurs in the loop's cell list comes out with
`destroyed_at = idx`. -/
theorem dfold_destroyed_set (idx : Int) (cs : List Cell) (h : CellHeap) (c : Cell)
    (hv : c.ref < h.length) (hmem : ∃ c' ∈ cs, c'.ref = c.ref) :
    (readMeta c (cs.foldl
        (fun a c0 => writeMeta c0 { readMeta c0 a with destroyed_at := idx } a) h)).destroyed_at
      = idx := by
  induction cs generalizing h with
  | nil => obtain ⟨c', hc', _⟩ := hmem; cases hc'
  | cons c' rest ih =>
      rw [List.foldl_cons]
      by_cases heq : c'.ref = c.ref
      · refine dfold_destroyed_pres idx rest _ c ?_
        rw [readMeta_writeMeta_same c c' _ h heq hv]
      · obtain ⟨c2, hc2, heq2⟩ := hmem
        rcases List.mem_cons.mp hc2 with hc2 | hc2
        · rw [hc2] at heq2
          exact absurd heq2 heq
        · refine ih _ (by rw [writeMeta_length]; exact hv) ⟨c2, hc2, heq2⟩

/-- A cell whose reference occurs nowhere in the loop's cell list is read
back unchanged. -/
theorem cfold_frame (idx : Int) (cs : List Cell) (h : CellHeap) (c : Cell)
    (hdisj : ∀ c' ∈ cs, c'.ref ≠ c.ref) :
    readMeta c (cs.foldl
        (fun a c0 => writeMeta c0 { readMeta c0 a with created_at := idx } a) h)
      = readMeta c h := by
  induction cs generalizing h with
  | nil => rfl
  | cons c' rest ih =>
      rw [List.foldl_cons, ih _ (fun x hx => hdisj x (List.mem_cons_of_mem c' hx)),
        readMeta_writeMeta_ne c c' _ h (hdisj c' (List.mem_cons_self c' rest))]

/-- Stamping one delta keeps the heap size. -/
theorem stampOne_length (idx : Int) (h : CellHeap) (dc : DeltaCell) :
    (stampOne idx h dc).length = h.length := by
  unfold stampOne
  rw [dfold_length, cfold_length]

/-- Stamping a list of deltas keeps the heap size. -/
theorem stampList_length (idx : Int) (dcs : List DeltaCell) (h : CellHeap) :
    (dcs.foldl (stampOne idx) h).length = h.length := by
  induction dcs generalizing h with
  | nil => rfl
  | cons dc rest ih => rw [List.foldl_cons, ih, stampOne_length]

/-- `created_at = idx` survives stamping one delta. -/
theorem stampOne_created_pres (idx : Int) (h : CellHeap) (dc : DeltaCell) (c : Cell)
    (hc : (readMeta c h).created_at = idx) :
    (readMeta c (stampOne idx h dc)).created_at = idx := by
  unfold stampOne
  rw [dfold_created_at]
  exact cfold_created_pres idx _ h c hc

/-- `destroyed_at = idx` survives stamping one delta. -/
theorem stampOne_destroyed_pres (idx : Int) (h : CellHeap) (dc : DeltaCell) (c : Cell)
    (hc : (readMeta c h).destroyed_at = idx) :
    (readMeta c (stampOne idx h dc)).destroyed_at = idx := by
  unfold stampOne
  refine dfold_destroyed_pres idx _ _ c ?_
  rw [cfold_destroyed_at]
  exact hc

/-- `created_at = idx` survives stamping a list of deltas. -/
theorem stampList_created_pres (idx : Int) (dcs : List DeltaCell) (h : CellHeap) (c : Cell)
    (hc : (readMeta c h).created_at = idx) :
    (readMeta c (dcs.foldl (stampOne idx) h)).created_at = idx := by
  induction dcs generalizing h with
  | nil => exact hc
  | cons dc rest ih => rw [List.foldl_cons]; exact ih _ (stampOne_created_pres idx h dc c hc)

/-- `destroyed_at = idx` survives stamping a list of deltas. -/
theorem stampList_destroyed_pres (idx : Int) (dcs : List DeltaCell) (h : CellHeap) (c : Cell)
    (hc : (readMeta c h).destroyed_at = idx) :
    (readMeta c (dcs.foldl (stampOne idx) h)).destroyed_at = idx := by
  induction dcs generalizing h with
  | nil => exact hc
  | cons dc rest ih => rw [List.foldl_cons]; exact ih _ (stampOne_destroyed_pres idx h dc c hc)

/-- A cell recorded as created in some delta is stamped
`created_at = idx`. -/
theorem stampList_created (idx : Int) (dcs : List DeltaCell) (h : CellHeap) (c : Cell)
    (hv : c.ref < h.length)
    (hmem : ∃ dc ∈ dcs, ∃ c' ∈ dc.new_cells, c'.ref = c.ref) :
    (readMeta c (dcs.foldl (stampOne idx) h)).created_at = idx := by
  induction dcs generalizing h with
  | nil => obtain ⟨dc, hdc, _⟩ := hmem; cases hdc
  | cons dc rest ih =>
      rw [List.foldl_cons]
      obtain ⟨dc2, hdc2, hex⟩ := hmem
      rcases List.mem_cons.mp hdc2 with hdc2 | hdc2
      · subst hdc2
        refine stampList_created_pres idx rest _ c ?_
        show (readMeta c (stampOne idx h dc2)).created_at = idx
        unfold stampOne
        rw [dfold_created_at]
        exact cfold_created_set idx _ h c hv hex
      · exact ih _ (by rw [stampOne_length]; exact hv) ⟨dc2, hdc2, hex⟩

/-- A cell recorded as destroyed in some delta is stamped
`destroyed_at = idx`. -/
theorem stampList_destroyed (idx : Int) (dcs : List DeltaCell) (h : CellHeap) (c : Cell)
    (hv : c.ref < h.length)
    (hmem : ∃ dc ∈ dcs, ∃ c' ∈ dc.destroyed_cells, c'.ref = c.ref) :
    (readMeta c (dcs.foldl (stampOne idx) h)).destroyed_at = idx := by
  induction dcs generalizing h with
  | nil => obtain ⟨dc, hdc, _⟩ := hmem; cases hdc
  | cons dc rest ih =>
      rw [List.foldl_cons]
      obtain ⟨dc2, hdc2, hex⟩ := hmem
      rcases List.mem_cons.mp hdc2 with hdc2 | hdc2
      · subst hdc2
        refine stampList_destroyed_pres idx rest _ c ?_
        show (readMeta c (stampOne idx h dc2)).destroyed_at = idx
        unfold stampOne
        refine dfold_destroyed_set idx _ _ c (by rw [cfold_length]; exact hv) hex
      · exact ih _ (by rw [stampOne_length]; exact hv) ⟨dc2, hdc2, hex⟩

/-- Stamping never changes the `created_at` of a cell that is created in no
delta. -/
theorem stampList_created_frame (idx : Int) (dcs : List DeltaCell) (h : CellHeap) (c : Cell)
    (hdisj : ∀ dc ∈ dcs, ∀ c' ∈ dc.new_cells, c'.ref ≠ c.ref) :
    (readMeta c (dcs.foldl (stampOne idx) h)).created_at = (readMeta c h).created_at := by
  induction dcs generalizing h with
  | nil => rfl
  | cons dc rest ih =>
      rw [List.foldl_cons, ih _ (fun x hx => hdisj x (List.mem_cons_of_mem dc hx))]
      show (readMeta c (stampOne idx h dc)).created_at = _
      unfold stampOne
      rw [dfold_created_at, cfold_frame idx _ h c (hdisj dc (List.mem_cons_self dc rest))]

/-- Dropping the falsy deltas does not change the destroyed-cell sweep: a
falsy delta has no destroyed cells. -/
theorem filter_destroyed_flatMap {γ : Type} (g : Cell → γ) (dcs : List DeltaCell) :
    (dcs.filter DeltaCell.toBool).flatMap (fun d => d.destroyed_cells.map g) =
      dcs.flatMap (fun d => d.destroyed_cells.map g) := by
  induction dcs with
  | nil => rfl
  | cons dc rest ih =>
      by_cases hb : DeltaCell.toBool dc = true
      · simp [List.filter_cons, hb, ih]
      · have hde : dc.destroyed_cells = [] := by
          unfold DeltaCell.toBool at hb
          simp only [Bool.or_eq_true, Bool.not_eq_true', not_or] at hb
          exact List.isEmpty_iff.mp (by simpa using hb.1)
        simp [List.filter_cons, hb, ih, hde]

/-- `causally_connected_events` is the `created_at` sweep over all destroyed
cells of the event's deltas. -/
theorem causally_connected_eq (e : Event) (h : CellHeap) :
    e.causally_connected_events h =
      (destroyedOf e.space_deltas).map fun c => (readMeta c h).created_at := by
  unfold Event.causally_connected_events Event.affected_cells destroyedOf deltaCellsOf
  rw [List.map_flatMap, List.flatMap_assoc, List.flatMap_assoc]
  congr 1
  funext ar
  rw [List.flatMap_assoc, List.flatMap_assoc]
  congr 1
  funext sd
  exact filter_destroyed_flatMap _ sd.cell_deltas

/-- When a step produced changes, `evolve` leaves the heap produced by
stamping the step's results with the new event index. -/
theorem evolve_heap_applied (f : Flow) (applied : List DeltaSpaces)
    (rules1 : List RuleM) (h1 : CellHeap)
    (hrs : ruleSetApply f.rule_set (currentEvent f).spaces f.heap = (applied, rules1, h1))
    (hany : applied.any DeltaSpaces.toBool = true) :
    (evolve f).heap = stampDeltas applied (f.events.length : Int) h1 := by
  unfold evolve
  rw [hrs]
  dsimp only
  split
  · rename_i hno
    exact absurd hany hno
  · rfl

/-- When a step produced changes, the appended event carries the step's
results as its space deltas. -/
theorem evolve_space_deltas_applied (f : Flow) (applied : List DeltaSpaces)
    (rules1 : List RuleM) (h1 : CellHeap)
    (hrs : ruleSetApply f.rule_set (currentEvent f).spaces f.heap = (applied, rules1, h1))
    (hany : applied.any DeltaSpaces.toBool = true) :
    (currentEvent (evolve f)).space_deltas = applied := by
  unfold evolve
  rw [hrs]
  dsimp only
  split
  · rename_i hno
    exact absurd hany hno
  · unfold currentEvent
    simp only [List.getLast?_concat, Option.getD_some]

/-- When a step produced changes, the appended event's causal distance is
`min(predecessor distances, default -1) + 1`, the predecessors read from the
stamped heap and looked up in the extended event list. -/
theorem evolve_cd_applied (f : Flow) (applied : List DeltaSpaces)
    (rules1 : List RuleM) (h1 : CellHeap)
    (hrs : ruleSetApply f.rule_set (currentEvent f).spaces f.heap = (applied, rules1, h1))
    (hany : applied.any DeltaSpaces.toBool = true) :
    (currentEvent (evolve f)).causal_distance_to_creation =
      minPrev (((Event.mk ((currentEvent f).time + 1) applied false 0).causally_connected_events
          (stampDeltas applied (f.events.length : Int) h1)).map fun e =>
        ((f.events ++ [Event.mk ((currentEvent f).time + 1) applied false 0]).getD e.toNat
          default).causal_distance_to_creation) + 1 := by
  unfold evolve
  rw [hrs]
  dsimp only
  split
  · rename_i hno
    exact absurd hany hno
  · unfold currentEvent
    simp only [List.getLast?_concat, Option.getD_some]

/-- C2: when `evolve()` appends a new event (index `len(events)`), every cell
recorded as destroyed is stamped `destroyed_at = index` and every cell
recorded as created is stamped `created_at = index`; the event's causal
predecessor list is exactly the `created_at` values of the destroyed cells
(read before stamping), and its causal distance is `1 + min` of the
predecessors' causal distances, or `0` with no predecessors. Concretely, one
step on `"AB"` under `["ABA -> AAB", "A -> ABA"]` yields predecessor set
`{0}` and causal distance 1. The validity hypothesis keeps references inside
the heap, the disjointness hypothesis says no created cell aliases a
destroyed cell, and the predecessor hypothesis keeps predecessor indices
inside the existing event list, all true of every heap the engine builds. -/
theorem C2_causal_bookkeeping (f : Flow) (c : Cell)
    (applied : List DeltaSpaces) (rules1 : List RuleM) (h1 : CellHeap)
    (hrs : ruleSetApply f.rule_set (currentEvent f).spaces f.heap = (applied, rules1, h1))
    (hany : applied.any DeltaSpaces.toBool = true)
    (hv : c.ref < h1.length)
    (hdisj : ∀ dc ∈ deltaCellsOf applied, ∀ c' ∈ dc.new_cells,
      ∀ c0 ∈ destroyedOf applied, c'.ref ≠ c0.ref)
    (hpred : ∀ p ∈ (destroyedOf applied).map fun c0 => (readMeta c0 h1).created_at,
      0 ≤ p ∧ p.toNat < f.events.length) :
    (c ∈ destroyedOf applied →
      (readMeta c (evolve f).heap).destroyed_at = (f.events.length : Int)) ∧
    (c ∈ createdOf applied →
      (readMeta c (evolve f).heap).created_at = (f.events.length : Int)) ∧
    (currentEvent (evolve f)).causally_connected_events (evolve f).heap =
      ((destroyedOf applied).map fun c0 => (readMeta c0 h1).created_at) ∧
    (currentEvent (evolve f)).causal_distance_to_creation =
      (match ((destroyedOf applied).map fun c0 => (readMeta c0 h1).created_at).map
          (fun p => (f.events.getD p.toNat default).causal_distance_to_creation) with
       | [] => 0
       | x :: xs => 1 + xs.foldl min x) ∧
    (abFlow1.events.getD 1 default).causally_connected_events abFlow1.heap = [0] ∧
    (abFlow1.events.getD 1 default).causal_distance_to_creation = 1 := by
  have hheap := evolve_heap_applied f applied rules1 h1 hrs hany
  have hsd := evolve_space_deltas_applied f applied rules1 h1 hrs hany
  have hcd := evolve_cd_applied f applied rules1 h1 hrs hany
  have hfold := stampDeltas_eq applied (f.events.length : Int) h1
  have hframe : ∀ c0 ∈ destroyedOf applied,
      (readMeta c0 (stampDeltas applied (f.events.length : Int) h1)).created_at =
        (readMeta c0 h1).created_at := by
    intro c0 hc0
    rw [hfold]
    exact stampList_created_frame _ _ _ c0 fun dc hdc c2 hc2 => hdisj dc hdc c2 hc2 c0 hc0
  have hpredsMap : ∀ (e : Event), e.space_deltas = applied →
      e.causally_connected_events (stampDeltas applied (f.events.length : Int) h1) =
        ((destroyedOf applied).map fun c0 => (readMeta c0 h1).created_at) := by
    intro e he
    rw [causally_connected_eq, he]
    exact List.map_congr_left hframe
  refine ⟨?_, ?_, ?_, ?_, ?_, ?_⟩
  · intro hcm
    rw [hheap, hfold]
    have hcm2 : c ∈ (deltaCellsOf applied).flatMap DeltaCell.destroyed_cells := hcm
    obtain ⟨dc, hdc, hcdc⟩ := List.mem_flatMap.mp hcm2
    exact stampList_destroyed _ _ _ c hv ⟨dc, hdc, c, hcdc, rfl⟩
  · intro hcm
    rw [hheap, hfold]
    have hcm2 : c ∈ (deltaCellsOf applied).flatMap DeltaCell.new_cells := hcm
    obtain ⟨dc, hdc, hcdc⟩ := List.mem_flatMap.mp hcm2
    exact stampList_created _ _ _ c hv ⟨dc, hdc, c, hcdc, rfl⟩
  · rw [hheap]
    exact hpredsMap _ hsd
  · rw [hcd, hpredsMap (Event.mk ((currentEvent f).time + 1) applied false 0) rfl]
    have hmap2 : (((destroyedOf applied).map fun c0 => (readMeta c0 h1).created_at).map
        fun e => ((f.events ++ [Event.mk ((currentEvent f).time + 1) applied false 0]).getD
          e.toNat default).causal_distance_to_creation) =
        (((destroyedOf applied).map fun c0 => (readMeta c0 h1).created_at).map
        fun p => (f.events.getD p.toNat default).causal_distance_to_creation) := by
      refine List.map_congr_left fun p hp => ?_
      obtain ⟨hp0, hplen⟩ := hpred p hp
      rw [List.getD_eq_getElem?_getD, List.getElem?_append_left hplen,
        ← List.getD_eq_getElem?_getD]
    rw [hmap2]
    generalize (((destroyedOf applied).map fun c0 => (readMeta c0 h1).created_at).map
      fun p => (f.events.getD p.toNat default).causal_distance_to_creation) = L
    cases L with
    | nil => decide
    | cons x xs =>
        show xs.foldl min x + 1 = 1 + xs.foldl min x
        omega
  · decide
  · decide

/-- C2 witness: on the `"AB"` scenario the destroyed initial `'A'` copy
(ref 11) is stamped `destroyed_at = 1`, and the appended event's
predecessors are `[0]` with causal distance 1. -/
theorem C2_causal_bookkeeping_witness :
    abDestroyedCopy ∈
      destroyedOf (ruleSetApply abFlow.rule_set (currentEvent abFlow).spaces abFlow.heap).1 ∧
    (readMeta abDestroyedCopy (evolve abFlow).heap).destroyed_at =
      ((abFlow.events.length : Nat) : Int) ∧
    (abFlow1.events.getD 1 default).causally_connected_events abFlow1.heap = [0] ∧
    (abFlow1.events.getD 1 default).causal_distance_to_creation = 1 := by
  have h := C2_causal_bookkeeping abFlow abDestroyedCopy
    (ruleSetApply abFlow.rule_set (currentEvent abFlow).spaces abFlow.heap).1
    (ruleSetApply abFlow.rule_set (currentEvent abFlow).spaces abFlow.heap).2.1
    (ruleSetApply abFlow.rule_set (currentEvent abFlow).spaces abFlow.heap).2.2
    rfl (by decide) (by decide) (by decide) (by decide)
  exact ⟨by decide, h.1 (by decide), h.2.2.2.2.1, h.2.2.2.2.2⟩

/-- C10 witness: after one `evolve()` on the `"AB"` scenario the flow holds
two events and the appended event's `time` equals its index 1. -/
theorem C10_event_index_invariant_witness :
    1 < (runCmds (flowInit [ruleABAtoAAB, ruleAtoABA] [⟨abInit.1⟩] targetABA.2)
        [.evolveC]).events.length ∧
    ((runCmds (flowInit [ruleABAtoAAB, ruleAtoABA] [⟨abInit.1⟩] targetABA.2)
        [.evolveC]).events.getD 1 default).time = ((1 : Nat) : Int) :=
  ⟨by decide,
    C10_event_index_invariant [ruleABAtoAAB, ruleAtoABA] [⟨abInit.1⟩] targetABA.2
      [.evolveC] 1 (by decide)⟩

end RuleFlow
